import Mathlib

/-!
Verification of the comparison engine of `autoupdate/sources.py`.

The local filesystem is modelled as a list of `(full path, content)` pairs,
listed in filesystem-walk order; `fs_exists` and `fs_read` model
`os.path.exists` and `open(...).read()`.  Paths are strings joined with `/`,
matching `os.path.join` on relative POSIX components.  Remote entities
(`Alias`, `Snippet`, `Collection`, `Gvar`) keep exactly the fields the
comparison engine reads; the identifier/version fields of `avrae.py` are
carried along by the engine but never inspected, so they are omitted.
-/

namespace Autoupdate

/-- Local filesystem model: files as `(full path, content)` pairs in walk order. -/
abbrev FS := List (String × String)

/-- Model of `os.path.exists` restricted to files of the modelled tree. -/
def fs_exists (fs : FS) (p : String) : Bool :=
  fs.any (fun f => f.1 == p)

/-- Model of reading an existing file (`open(p).read()`); only meaningful under
`fs_exists fs p = true`, which is how the source guards every read. -/
def fs_read (fs : FS) (p : String) : String :=
  ((fs.find? (fun f => f.1 == p)).map Prod.snd).getD ""

/-- Model of writing a file: replace the content in place when the path exists,
otherwise append the new file.  Parent-directory creation is a no-op in the
flat-list model. -/
def fs_write (fs : FS) (p : String) (content : String) : FS :=
  if fs.any (fun f => f.1 == p) then
    fs.map (fun f => if f.1 == p then (p, content) else f)
  else
    fs ++ [(p, content)]

/-- Model of `os.path.join` on relative POSIX components. -/
def path_join : List String → String
  | [] => ""
  | [s] => s
  | s :: rest => s ++ "/" ++ path_join rest

/-- `avrae.py` `Alias`: name, active code, docs, and nested sub-aliases
(`subcommands`).  The remaining API fields are never read by the comparison. -/
inductive Alias where
  | mk (name : String) (code : String) (docs : String) (subcommands : List Alias)

/-- The alias' name. -/
def Alias.name : Alias → String
  | .mk n _ _ _ => n

/-- The alias' active code. -/
def Alias.code : Alias → String
  | .mk _ c _ _ => c

/-- The alias' docs string. -/
def Alias.docs : Alias → String
  | .mk _ _ d _ => d

/-- The alias' nested sub-aliases. -/
def Alias.subcommands : Alias → List Alias
  | .mk _ _ _ subs => subs

@[simp] lemma Alias.name_mk (n c d : String) (subs : List Alias) :
    (Alias.mk n c d subs).name = n := rfl

@[simp] lemma Alias.code_mk (n c d : String) (subs : List Alias) :
    (Alias.mk n c d subs).code = c := rfl

@[simp] lemma Alias.docs_mk (n c d : String) (subs : List Alias) :
    (Alias.mk n c d subs).docs = d := rfl

@[simp] lemma Alias.subcommands_mk (n c d : String) (subs : List Alias) :
    (Alias.mk n c d subs).subcommands = subs := rfl

/-- `avrae.py` `Snippet`: name, active code, docs. -/
structure Snippet where
  name : String
  code : String
  docs : String
deriving DecidableEq

/-- `avrae.py` `Collection`: name plus its aliases and snippets. -/
structure Collection where
  name : String
  aliases : List Alias
  snippets : List Snippet

/-- `avrae.py` `Gvar`: key and value (the fields `_compare_gvars` reads). -/
structure Gvar where
  key : String
  value : String
deriving DecidableEq

/-- Python `dict` single-key assignment `m[k] = v`: replace the value in place
when the key is present (keeping its insertion position), else append. -/
def dict_update (m : List (String × α)) (k : String) (v : α) : List (String × α) :=
  if m.any (fun kv => kv.1 == k) then
    m.map (fun kv => if kv.1 == k then (k, v) else kv)
  else
    m ++ [(k, v)]

/-- Python `dict.update(other)`: assign every entry of `other` in order. -/
def dict_update_many (m : List (String × α)) (entries : List (String × α)) :
    List (String × α) :=
  entries.foldl (fun acc kv => dict_update acc kv.1 kv.2) m

/-- The alias comparison-result classes of `sources.py` as one closed variant
type.  `LocalAliasNotFoundInAvrae` carries only the path (`alias_path`), the
other variants also carry the compared `Alias`. -/
inductive AliasResult where
  | LocalAliasNotFoundInAvrae (alias_path : String)
  | LocalAliasMatchesAvrae (alias_path : String) (al : Alias)
  | LocalAliasDocsMatchAvrae (alias_path : String) (al : Alias)
  | LocalAliasMissing (alias_path : String) (al : Alias)
  | LocalAliasDocsMissing (alias_path : String) (al : Alias)
  | LocalAliasDoesNotMatchAvrae (alias_path : String) (al : Alias)
  | LocalAliasDocsDoNotMatchAvrae (alias_path : String) (al : Alias)

/-- The `alias_path` field shared by every alias comparison result. -/
def AliasResult.alias_path : AliasResult → String
  | .LocalAliasNotFoundInAvrae p => p
  | .LocalAliasMatchesAvrae p _ => p
  | .LocalAliasDocsMatchAvrae p _ => p
  | .LocalAliasMissing p _ => p
  | .LocalAliasDocsMissing p _ => p
  | .LocalAliasDoesNotMatchAvrae p _ => p
  | .LocalAliasDocsDoNotMatchAvrae p _ => p

/-- The snippet comparison-result classes of `sources.py`. -/
inductive SnippetResult where
  | LocalSnippetNotFoundInAvrae (snippet_path : String)
  | LocalSnippetMatchesAvrae (snippet_path : String) (s : Snippet)
  | LocalSnippetDocsMatchAvrae (snippet_path : String) (s : Snippet)
  | LocalSnippetMissing (snippet_path : String) (s : Snippet)
  | LocalSnippetDocsMissing (snippet_path : String) (s : Snippet)
  | LocalSnippetDoesNotMatchAvrae (snippet_path : String) (s : Snippet)
  | LocalSnippetDocsDoNotMatchAvrae (snippet_path : String) (s : Snippet)
deriving DecidableEq

/-- The `snippet_path` field shared by every snippet comparison result. -/
def SnippetResult.snippet_path : SnippetResult → String
  | .LocalSnippetNotFoundInAvrae p => p
  | .LocalSnippetMatchesAvrae p _ => p
  | .LocalSnippetDocsMatchAvrae p _ => p
  | .LocalSnippetMissing p _ => p
  | .LocalSnippetDocsMissing p _ => p
  | .LocalSnippetDoesNotMatchAvrae p _ => p
  | .LocalSnippetDocsDoNotMatchAvrae p _ => p

/-- The gvar comparison-result classes of `sources.py`. -/
inductive GvarResult where
  | LocalGvarNotFoundInAvrae (gvar_path : String)
  | LocalGvarMatchesAvrae (gvar_path : String) (g : Gvar)
  | LocalGvarMissing (gvar_path : String) (g : Gvar)
  | LocalGvarDoesNotMatchAvrae (gvar_path : String) (g : Gvar)
deriving DecidableEq

mutual

/-- `build_alias_map` from `_compare_aliases`:
`alias_map = {join(*path_segments, alias.name, alias.name): alias}` followed by
`alias_map.update(build_alias_map(path_segments + [alias.name], subalias))` for
each sub-alias in order.  The loop over sub-aliases is `build_alias_map_subs`. -/
def build_alias_map (path_segments : List String) : Alias → List (String × Alias)
  | .mk n c d subs =>
    build_alias_map_subs (path_segments ++ [n])
      [(path_join (path_segments ++ [n, n]), Alias.mk n c d subs)] subs

/-- The `for subalias in alias.subcommands or []` loop of `build_alias_map`,
also reused for the top-level `for alias in collection.aliases or []` loop of
`_compare_aliases` (both fold `dict.update` over a list of aliases). -/
def build_alias_map_subs (path_segments : List String)
    (acc : List (String × Alias)) : List Alias → List (String × Alias)
  | [] => acc
  | s :: rest =>
    build_alias_map_subs path_segments
      (dict_update_many acc (build_alias_map path_segments s)) rest

end

/-- The `aliases_map` built by `_compare_aliases` for a collection:
start from `{}` and `update` with `build_alias_map([base_path, collection.name],
alias)` for each top-level alias in order. -/
def collection_alias_map (collection : Collection) (base_path : String) :
    List (String × Alias) :=
  build_alias_map_subs [base_path, collection.name] [] collection.aliases

/-- The `valid_doc_files` candidate list of `build_alias_comparison` /
`build_snippet_comparison`: base + `.md`, `.markdown`, `.MARKDOWN` in order. -/
def valid_doc_files (base : String) : List String :=
  [base ++ ".md", base ++ ".markdown", base ++ ".MARKDOWN"]

/-- The code-check section of `build_alias_comparison` (the single result it
appends): missing when the `.alias` file does not exist, else matches or does
not match by exact content equality. -/
def alias_code_result (fs : FS) (alias_base_file_path : String) (al : Alias) :
    AliasResult :=
  if ¬ fs_exists fs (alias_base_file_path ++ ".alias") then
    .LocalAliasMissing (alias_base_file_path ++ ".alias") al
  else if fs_read fs (alias_base_file_path ++ ".alias") == al.code then
    .LocalAliasMatchesAvrae (alias_base_file_path ++ ".alias") al
  else
    .LocalAliasDoesNotMatchAvrae (alias_base_file_path ++ ".alias") al

/-- The docs-check section of `build_alias_comparison` (the single result it
appends): `next(filter(os.path.exists, valid_doc_files), None)` picks the first
existing candidate; when none exists the missing result reports
`valid_doc_files[0]`. -/
def alias_docs_result (fs : FS) (alias_base_file_path : String) (al : Alias) :
    AliasResult :=
  match (valid_doc_files alias_base_file_path).find? (fun p => fs_exists fs p) with
  | none => .LocalAliasDocsMissing (alias_base_file_path ++ ".md") al
  | some alias_doc_path =>
    if fs_read fs alias_doc_path == al.docs then
      .LocalAliasDocsMatchAvrae alias_doc_path al
    else
      .LocalAliasDocsDoNotMatchAvrae alias_doc_path al

/-- `build_alias_comparison`: the code section appends exactly one result, then
the docs section appends exactly one result. -/
def build_alias_comparison (fs : FS) (alias_base_file_path : String)
    (al : Alias) : List AliasResult :=
  [alias_code_result fs alias_base_file_path al,
   alias_docs_result fs alias_base_file_path al]

/-- `find_aliases` fused with the later re-join: the source walks `base_path`
with `os.walk`, records each `.alias` file path relative to the walk root, and
`_compare_aliases` immediately re-joins it onto the walk root, recovering the
file's full path.  In the flat-list model this is: the full paths of the files
strictly under `base_path` whose name ends in `.alias`, in walk order. -/
def find_aliases (base_path : String) (fs : FS) : List String :=
  (fs.filter (fun f =>
    (base_path ++ "/").data.isPrefixOf f.1.data && ".alias".data.isSuffixOf f.1.data)).map Prod.fst

/-- `_compare_aliases`: compare every alias of the derived map, then report the
walked `.alias` files that are not expected files of the map. -/
def compare_aliases (fs : FS) (collection : Collection) (base_path : String) :
    List AliasResult :=
  let path_segments := [base_path, collection.name]
  let aliases_map := collection_alias_map collection base_path
  let comparison_results :=
    (aliases_map.map (fun e => build_alias_comparison fs e.1 e.2)).flatten
  let full_local_aliases := find_aliases (path_join path_segments) fs
  let avrae_alias_files := aliases_map.map (fun e => e.1 ++ ".alias")
  comparison_results ++
    (full_local_aliases.filter (fun f => ! avrae_alias_files.contains f)).map
      AliasResult.LocalAliasNotFoundInAvrae

/-- The code-check section of `build_snippet_comparison`. -/
def snippet_code_result (fs : FS) (snippet_base_file_path : String)
    (s : Snippet) : SnippetResult :=
  if ¬ fs_exists fs (snippet_base_file_path ++ ".snippet") then
    .LocalSnippetMissing (snippet_base_file_path ++ ".snippet") s
  else if fs_read fs (snippet_base_file_path ++ ".snippet") == s.code then
    .LocalSnippetMatchesAvrae (snippet_base_file_path ++ ".snippet") s
  else
    .LocalSnippetDoesNotMatchAvrae (snippet_base_file_path ++ ".snippet") s

/-- The docs-check section of `build_snippet_comparison`. -/
def snippet_docs_result (fs : FS) (snippet_base_file_path : String)
    (s : Snippet) : SnippetResult :=
  match (valid_doc_files snippet_base_file_path).find? (fun p => fs_exists fs p) with
  | none => .LocalSnippetDocsMissing (snippet_base_file_path ++ ".md") s
  | some snippet_doc_path =>
    if fs_read fs snippet_doc_path == s.docs then
      .LocalSnippetDocsMatchAvrae snippet_doc_path s
    else
      .LocalSnippetDocsDoNotMatchAvrae snippet_doc_path s

/-- `build_snippet_comparison`: one code result then one docs result. -/
def build_snippet_comparison (fs : FS) (snippet_base_file_path : String)
    (s : Snippet) : List SnippetResult :=
  [snippet_code_result fs snippet_base_file_path s,
   snippet_docs_result fs snippet_base_file_path s]

/-- `find_snippets` fused with the later re-join and `normpath`, exactly as
`find_aliases` (the `normpath` only cancels the `./` produced by `relpath` at
the walk root, so the composite again yields the file's full path). -/
def find_snippets (base_path : String) (fs : FS) : List String :=
  (fs.filter (fun f =>
    (base_path ++ "/").data.isPrefixOf f.1.data && ".snippet".data.isSuffixOf f.1.data)).map Prod.fst

/-- The `snippets_map` of `_compare_snippets`: a dict comprehension keyed by
`join(base_path / collection.name / 'snippets', snippet.name)`. -/
def collection_snippet_map (collection : Collection) (base_path : String) :
    List (String × Snippet) :=
  dict_update_many []
    (collection.snippets.map (fun s =>
      (path_join [base_path, collection.name, "snippets"] ++ "/" ++ s.name, s)))

/-- `_compare_snippets`: compare every snippet of the derived map, then report
the walked `.snippet` files that are not expected files of the map. -/
def compare_snippets (fs : FS) (collection : Collection) (base_path : String) :
    List SnippetResult :=
  let snippets_directory := path_join [base_path, collection.name, "snippets"]
  let snippets_map := collection_snippet_map collection base_path
  let comparison_results :=
    (snippets_map.map (fun e => build_snippet_comparison fs e.1 e.2)).flatten
  let full_local_snippets := find_snippets snippets_directory fs
  let avrae_snippet_files := snippets_map.map (fun e => e.1 ++ ".snippet")
  comparison_results ++
    (full_local_snippets.filter (fun f => ! avrae_snippet_files.contains f)).map
      SnippetResult.LocalSnippetNotFoundInAvrae

/-- `build_gvar_comparison` from `_compare_gvars`: a key with no remote gvar is
not-found (regardless of the local file); else a missing local file is missing;
else exact content comparison. -/
def build_gvar_comparison (gvars : List Gvar) (fs : FS) (gvar_key : String)
    (gvar_path : String) : GvarResult :=
  match gvars.find? (fun g => g.key == gvar_key) with
  | none => .LocalGvarNotFoundInAvrae gvar_path
  | some g =>
    if ¬ fs_exists fs gvar_path then
      .LocalGvarMissing gvar_path g
    else if fs_read fs gvar_path == g.value then
      .LocalGvarMatchesAvrae gvar_path g
    else
      .LocalGvarDoesNotMatchAvrae gvar_path g

/-- `_compare_gvars`: one result per key of the config mapping, in mapping
order, at path `join(base_path, relative_path)`. -/
def compare_gvars (gvars : List Gvar) (config : List (String × String))
    (base_path : String) (fs : FS) : List GvarResult :=
  config.map (fun e => build_gvar_comparison gvars fs e.1 (path_join [base_path, e.2]))

/-- Modelled from the spec: `sources.py` only declares `ComparisonResult.apply`
as a stub and the `UpdatesRepository` marker that `pull.py` imports is absent
from the sources, so the "local repository is behind" classification is taken
from spec section 4.5: the `*Missing`, `*DoesNotMatchAvrae`, `*DocsMissing` and
`*DocsDoNotMatchAvrae` variants update the repository. -/
def AliasResult.updates_repository : AliasResult → Bool
  | .LocalAliasMissing _ _ => true
  | .LocalAliasDoesNotMatchAvrae _ _ => true
  | .LocalAliasDocsMissing _ _ => true
  | .LocalAliasDocsDoNotMatchAvrae _ _ => true
  | _ => false

/-- Modelled from the spec: the missing implementation of
`ComparisonResult.apply` for alias results — a "local repository is behind"
variant writes the remote content (code, or docs for the docs variants) to the
result's expected local path; other variants are no-ops or caller-driven. -/
def AliasResult.apply_result (fs : FS) : AliasResult → FS
  | .LocalAliasMissing p al => fs_write fs p al.code
  | .LocalAliasDoesNotMatchAvrae p al => fs_write fs p al.code
  | .LocalAliasDocsMissing p al => fs_write fs p al.docs
  | .LocalAliasDocsDoNotMatchAvrae p al => fs_write fs p al.docs
  | _ => fs

/-- The "matches" variant corresponding to a "local repository is behind" alias
result, at the same path: states the expected outcome of re-running the
comparison after `apply_result`. -/
def AliasResult.resolved : AliasResult → AliasResult
  | .LocalAliasMissing p al => .LocalAliasMatchesAvrae p al
  | .LocalAliasDoesNotMatchAvrae p al => .LocalAliasMatchesAvrae p al
  | .LocalAliasDocsMissing p al => .LocalAliasDocsMatchAvrae p al
  | .LocalAliasDocsDoNotMatchAvrae p al => .LocalAliasDocsMatchAvrae p al
  | r => r

/-- Modelled from the spec: the "local repository is behind" snippet variants. -/
def SnippetResult.updates_repository : SnippetResult → Bool
  | .LocalSnippetMissing _ _ => true
  | .LocalSnippetDoesNotMatchAvrae _ _ => true
  | .LocalSnippetDocsMissing _ _ => true
  | .LocalSnippetDocsDoNotMatchAvrae _ _ => true
  | _ => false

/-- Modelled from the spec: the missing `apply` implementation for snippet
results, writing remote code or docs to the expected local path. -/
def SnippetResult.apply_result (fs : FS) : SnippetResult → FS
  | .LocalSnippetMissing p s => fs_write fs p s.code
  | .LocalSnippetDoesNotMatchAvrae p s => fs_write fs p s.code
  | .LocalSnippetDocsMissing p s => fs_write fs p s.docs
  | .LocalSnippetDocsDoNotMatchAvrae p s => fs_write fs p s.docs
  | _ => fs

/-- The "matches" variant corresponding to a "local behind" snippet result. -/
def SnippetResult.resolved : SnippetResult → SnippetResult
  | .LocalSnippetMissing p s => .LocalSnippetMatchesAvrae p s
  | .LocalSnippetDoesNotMatchAvrae p s => .LocalSnippetMatchesAvrae p s
  | .LocalSnippetDocsMissing p s => .LocalSnippetDocsMatchAvrae p s
  | .LocalSnippetDocsDoNotMatchAvrae p s => .LocalSnippetDocsMatchAvrae p s
  | r => r

/-- Modelled from the spec: the "local repository is behind" gvar variants. -/
def GvarResult.updates_repository : GvarResult → Bool
  | .LocalGvarMissing _ _ => true
  | .LocalGvarDoesNotMatchAvrae _ _ => true
  | _ => false

/-- Modelled from the spec: the missing `apply` implementation for gvar
results, writing the remote value to the expected local path. -/
def GvarResult.apply_result (fs : FS) : GvarResult → FS
  | .LocalGvarMissing p g => fs_write fs p g.value
  | .LocalGvarDoesNotMatchAvrae p g => fs_write fs p g.value
  | _ => fs

/-- The "matches" variant corresponding to a "local behind" gvar result. -/
def GvarResult.resolved : GvarResult → GvarResult
  | .LocalGvarMissing p g => .LocalGvarMatchesAvrae p g
  | .LocalGvarDoesNotMatchAvrae p g => .LocalGvarMatchesAvrae p g
  | r => r

/-- Whether an alias result is one of the three code-classification variants
(missing / matches / does not match). -/
def AliasResult.is_code_classification : AliasResult → Bool
  | .LocalAliasMissing _ _ => true
  | .LocalAliasMatchesAvrae _ _ => true
  | .LocalAliasDoesNotMatchAvrae _ _ => true
  | _ => false

/-- Whether an alias result is one of the three docs-classification variants. -/
def AliasResult.is_docs_classification : AliasResult → Bool
  | .LocalAliasDocsMissing _ _ => true
  | .LocalAliasDocsMatchAvrae _ _ => true
  | .LocalAliasDocsDoNotMatchAvrae _ _ => true
  | _ => false

/-- Whether a snippet result is one of the three code-classification variants. -/
def SnippetResult.is_code_classification : SnippetResult → Bool
  | .LocalSnippetMissing _ _ => true
  | .LocalSnippetMatchesAvrae _ _ => true
  | .LocalSnippetDoesNotMatchAvrae _ _ => true
  | _ => false

/-- Whether a snippet result is one of the three docs-classification variants. -/
def SnippetResult.is_docs_classification : SnippetResult → Bool
  | .LocalSnippetDocsMissing _ _ => true
  | .LocalSnippetDocsMatchAvrae _ _ => true
  | .LocalSnippetDocsDoNotMatchAvrae _ _ => true
  | _ => false

/-- Chains through a collection's alias tree: `InTree a names x` holds when
`x` is reachable from the root alias `a` and `names` is the list of alias
names along the chain, starting with `a.name` and ending with `x.name`. -/
inductive InTree : Alias → List String → Alias → Prop where
  | here (a : Alias) : InTree a [a.name] a
  | child {a b x : Alias} {names : List String} (hb : b ∈ a.subcommands)
      (h : InTree b names x) : InTree a (a.name :: names) x

/-- A chain through one of the collection's top-level alias trees. -/
def alias_chain (collection : Collection) (names : List String) (x : Alias) :
    Prop :=
  ∃ a, a ∈ collection.aliases ∧ InTree a names x

lemma str_append_cancel_left {base s t : String} (h : base ++ s = base ++ t) :
    s = t := by
  have hd : base.data ++ s.data = base.data ++ t.data := by
    have := congrArg String.data h
    simpa [String.data_append] using this
  exact String.ext (List.append_cancel_left hd)

lemma str_append_ne {base : String} {s t : String} (h : s ≠ t) :
    base ++ s ≠ base ++ t :=
  fun he => h (str_append_cancel_left he)

lemma fs_exists_eq_isSome (fs : FS) (p : String) :
    fs_exists fs p = (fs.find? (fun f => f.1 == p)).isSome := by
  induction fs with
  | nil => rfl
  | cons f t ih =>
    by_cases hf : f.1 == p
    · simp [fs_exists, List.find?_cons, hf]
    · simp only [Bool.not_eq_true] at hf
      simp [fs_exists, List.find?_cons, hf] at ih ⊢
      exact ih

lemma find?_fs_write_self (fs : FS) (p v : String) :
    (fs_write fs p v).find? (fun f => f.1 == p) = some (p, v) := by
  unfold fs_write
  split
  · rename_i hany
    rw [List.find?_map]
    have hpred : ((fun (f : String × String) => f.1 == p) ∘
        (fun f => if f.1 == p then (p, v) else f)) =
        (fun (f : String × String) => f.1 == p) := by
      funext f
      by_cases hf : f.1 == p
      · simp [Function.comp, hf]
      · simp [Function.comp, hf]
    rw [hpred]
    cases hfind : fs.find? (fun f => f.1 == p) with
    | none =>
      exfalso
      have hs := List.find?_isSome.mpr (List.any_eq_true.mp hany)
      rw [hfind] at hs
      simp at hs
    | some r =>
      have hr : r.1 = p := by simpa using List.find?_some hfind
      simp [Option.map, hr]
  · rename_i hany
    rw [List.find?_append]
    have hnone : fs.find? (fun f => f.1 == p) = none := by
      rw [List.find?_eq_none]
      intro x hx hpx
      exact hany (List.any_eq_true.mpr ⟨x, hx, hpx⟩)
    simp [hnone, List.find?_cons]

lemma fs_exists_fs_write_self (fs : FS) (p v : String) :
    fs_exists (fs_write fs p v) p = true := by
  rw [fs_exists_eq_isSome, find?_fs_write_self]
  rfl

lemma fs_read_fs_write_self (fs : FS) (p v : String) :
    fs_read (fs_write fs p v) p = v := by
  unfold fs_read
  rw [find?_fs_write_self]
  rfl

lemma find?_fs_write_ne (fs : FS) (p v : String) {q : String} (h : q ≠ p) :
    (fs_write fs p v).find? (fun f => f.1 == q) = fs.find? (fun f => f.1 == q) := by
  unfold fs_write
  split
  · rw [List.find?_map]
    have hpred : ((fun (f : String × String) => f.1 == q) ∘
        (fun f => if f.1 == p then (p, v) else f)) =
        (fun (f : String × String) => f.1 == q) := by
      funext f
      by_cases hf : f.1 == p
      · have hfp : f.1 = p := by simpa using hf
        simp [Function.comp, hf, hfp, beq_eq_false_iff_ne, h, Ne.symm h]
      · simp [Function.comp, hf]
    rw [hpred]
    cases hfind : fs.find? (fun f => f.1 == q) with
    | none => rfl
    | some r =>
      have hr : r.1 = q := by simpa using List.find?_some hfind
      have : ¬ (r.1 == p) = true := by
        simp [hr, beq_eq_false_iff_ne]
        exact h
      simp [Option.map, this]
  · rw [List.find?_append]
    cases hfind : fs.find? (fun f => f.1 == q) with
    | none =>
      have hpq : (p == q) = false := beq_eq_false_iff_ne.mpr (Ne.symm h)
      simp [List.find?_cons, hpq]
    | some r => rfl

lemma fs_exists_fs_write_ne (fs : FS) (p v : String) {q : String} (h : q ≠ p) :
    fs_exists (fs_write fs p v) q = fs_exists fs q := by
  rw [fs_exists_eq_isSome, fs_exists_eq_isSome, find?_fs_write_ne fs p v h]

lemma fs_read_fs_write_ne (fs : FS) (p v : String) {q : String} (h : q ≠ p) :
    fs_read (fs_write fs p v) q = fs_read fs q := by
  unfold fs_read
  rw [find?_fs_write_ne fs p v h]

lemma mem_dict_update_elim {m : List (String × α)} {k : String} {v : α}
    {e : String × α} (h : e ∈ dict_update m k v) : e = (k, v) ∨ e ∈ m := by
  unfold dict_update at h
  split at h
  · rcases List.mem_map.mp h with ⟨kv, hkv, heq⟩
    by_cases hk : kv.1 == k
    · rw [if_pos hk] at heq
      exact Or.inl heq.symm
    · rw [if_neg hk] at heq
      exact Or.inr (heq ▸ hkv)
  · rcases List.mem_append.mp h with h1 | h2
    · exact Or.inr h1
    · exact Or.inl (by simpa using h2)

lemma key_mem_dict_update_self (m : List (String × α)) (k : String) (v : α) :
    k ∈ (dict_update m k v).map Prod.fst := by
  unfold dict_update
  split
  · rename_i hany
    rcases List.any_eq_true.mp hany with ⟨f, hf, hfk⟩
    exact List.mem_map.mpr ⟨(k, v), by
      refine List.mem_map.mpr ⟨f, hf, ?_⟩
      simp [hfk], rfl⟩
  · exact List.mem_map.mpr ⟨(k, v), List.mem_append_right _ (by simp), rfl⟩

lemma key_mem_dict_update_mono {m : List (String × α)} {p : String}
    (k : String) (v : α) (h : p ∈ m.map Prod.fst) :
    p ∈ (dict_update m k v).map Prod.fst := by
  unfold dict_update
  split
  · rcases List.mem_map.mp h with ⟨f, hf, hfp⟩
    refine List.mem_map.mpr ⟨if f.1 == k then (k, v) else f, List.mem_map_of_mem _ hf, ?_⟩
    by_cases hfk : f.1 == k
    · have : f.1 = k := by simpa using hfk
      simp only [if_pos hfk]
      rw [← hfp, this]
    · simp only [if_neg hfk]
      exact hfp
  · rw [List.map_append]
    exact List.mem_append_left _ h

lemma mem_dict_update_many_elim :
    ∀ (es : List (String × α)) (m : List (String × α)) (e : String × α),
      e ∈ dict_update_many m es → e ∈ m ∨ e ∈ es := by
  intro es
  induction es with
  | nil => intro m e h; exact Or.inl h
  | cons kv t ih =>
    intro m e h
    have h' : e ∈ dict_update_many (dict_update m kv.1 kv.2) t := h
    rcases ih _ _ h' with h1 | h2
    · rcases mem_dict_update_elim h1 with he | hm
      · exact Or.inr (by simp [he])
      · exact Or.inl hm
    · exact Or.inr (List.mem_cons_of_mem _ h2)

lemma key_mem_dict_update_many_left :
    ∀ (es : List (String × α)) (m : List (String × α)) {p : String},
      p ∈ m.map Prod.fst → p ∈ (dict_update_many m es).map Prod.fst := by
  intro es
  induction es with
  | nil => intro m p h; exact h
  | cons kv t ih =>
    intro m p h
    exact ih _ (key_mem_dict_update_mono kv.1 kv.2 h)

lemma key_mem_dict_update_many_right :
    ∀ (es : List (String × α)) (m : List (String × α)) {p : String},
      p ∈ es.map Prod.fst → p ∈ (dict_update_many m es).map Prod.fst := by
  intro es
  induction es with
  | nil => intro m p h; simp at h
  | cons kv t ih =>
    intro m p h
    rcases List.mem_map.mp h with ⟨f, hf, hfp⟩
    rcases List.mem_cons.mp hf with rfl | hft
    · exact key_mem_dict_update_many_left t _
        (hfp ▸ key_mem_dict_update_self m f.1 f.2)
    · exact ih _ (List.mem_map.mpr ⟨f, hft, hfp⟩)

lemma mem_build_alias_map_subs_elim :
    ∀ (l : List Alias) (ps : List String) (acc : List (String × Alias))
      (e : String × Alias), e ∈ build_alias_map_subs ps acc l →
      e ∈ acc ∨ ∃ s ∈ l, e ∈ build_alias_map ps s := by
  intro l
  induction l with
  | nil => intro ps acc e h; exact Or.inl h
  | cons s t ih =>
    intro ps acc e h
    simp only [build_alias_map_subs] at h
    rcases ih _ _ _ h with h1 | ⟨s', hs', hmem⟩
    · rcases mem_dict_update_many_elim _ _ _ h1 with hacc | hbam
      · exact Or.inl hacc
      · exact Or.inr ⟨s, List.mem_cons_self s t, hbam⟩
    · exact Or.inr ⟨s', List.mem_cons_of_mem _ hs', hmem⟩

lemma key_mem_build_alias_map_subs_acc :
    ∀ (l : List Alias) (ps : List String) (acc : List (String × Alias))
      {p : String}, p ∈ acc.map Prod.fst →
      p ∈ (build_alias_map_subs ps acc l).map Prod.fst := by
  intro l
  induction l with
  | nil => intro ps acc p h; exact h
  | cons s t ih =>
    intro ps acc p h
    simp only [build_alias_map_subs]
    exact ih _ _ (key_mem_dict_update_many_left _ _ h)

lemma key_mem_build_alias_map_subs_mem :
    ∀ (l : List Alias) (ps : List String) (acc : List (String × Alias))
      {s : Alias} {p : String}, s ∈ l → p ∈ (build_alias_map ps s).map Prod.fst →
      p ∈ (build_alias_map_subs ps acc l).map Prod.fst := by
  intro l
  induction l with
  | nil => intro ps acc s p h; simp at h
  | cons s' t ih =>
    intro ps acc s p hs hp
    simp only [build_alias_map_subs]
    rcases List.mem_cons.mp hs with rfl | hst
    · exact key_mem_build_alias_map_subs_acc _ _ _
        (key_mem_dict_update_many_right _ _ hp)
    · exact ih _ _ hst hp

lemma key_mem_build_alias_map_of_chain {a : Alias} {names : List String}
    {x : Alias} (h : InTree a names x) :
    ∀ ps, path_join (ps ++ names ++ [x.name]) ∈
      (build_alias_map ps a).map Prod.fst := by
  induction h with
  | here a =>
    intro ps
    cases a with
    | mk n c d subs =>
      simp only [build_alias_map, Alias.name_mk]
      apply key_mem_build_alias_map_subs_acc
      have harg : ps ++ [n] ++ [n] = ps ++ [n, n] := by simp
      rw [harg]
      simp
  | child hb hsub ih =>
    intro ps
    rename_i a b x names
    cases a with
    | mk n c d subs =>
      simp only [build_alias_map, Alias.name_mk]
      have hb' : b ∈ subs := by simpa [Alias.subcommands_mk] using hb
      have harg : ps ++ n :: names ++ [x.name] = (ps ++ [n]) ++ names ++ [x.name] := by
        simp
      rw [harg]
      exact key_mem_build_alias_map_subs_mem _ _ _ hb' (ih (ps ++ [n]))

lemma mem_build_alias_map_elim_aux :
    ∀ (N : Nat) (a : Alias), sizeOf a ≤ N → ∀ ps (e : String × Alias),
      e ∈ build_alias_map ps a →
      ∃ names, InTree a names e.2 ∧
        e.1 = path_join (ps ++ names ++ [e.2.name]) := by
  intro N
  induction N with
  | zero =>
    intro a ha
    cases a with
    | mk n c d subs =>
      rw [Alias.mk.sizeOf_spec] at ha
      omega
  | succ N ih =>
    intro a ha ps e he
    cases a with
    | mk n c d subs =>
      simp only [build_alias_map] at he
      rcases mem_build_alias_map_subs_elim _ _ _ _ he with hacc | ⟨s, hs, hmem⟩
      · have hee : e = (path_join (ps ++ [n, n]), Alias.mk n c d subs) := by
          simpa using hacc
        refine ⟨[n], ?_, ?_⟩
        · rw [hee]
          exact (show Alias.name (.mk n c d subs) = n from rfl) ▸
            InTree.here (Alias.mk n c d subs)
        · rw [hee]
          simp [Alias.name]
      · have hsize : sizeOf s ≤ N := by
          have h1 : sizeOf s < sizeOf subs := List.sizeOf_lt_of_mem hs
          rw [Alias.mk.sizeOf_spec] at ha
          omega
        rcases ih s hsize (ps ++ [n]) e hmem with ⟨names, hin, hp⟩
        refine ⟨n :: names, InTree.child (by simpa [Alias.subcommands] using hs) hin, ?_⟩
        rw [hp]
        congr 1
        simp

lemma mem_build_alias_map_elim {a : Alias} {ps : List String}
    {e : String × Alias} (he : e ∈ build_alias_map ps a) :
    ∃ names, InTree a names e.2 ∧
      e.1 = path_join (ps ++ names ++ [e.2.name]) :=
  mem_build_alias_map_elim_aux (sizeOf a) a (Nat.le_refl _) ps e he

lemma mem_collection_alias_map_elim {collection : Collection}
    {base_path : String} {e : String × Alias}
    (he : e ∈ collection_alias_map collection base_path) :
    ∃ names, alias_chain collection names e.2 ∧
      e.1 = path_join ([base_path, collection.name] ++ names ++ [e.2.name]) := by
  unfold collection_alias_map at he
  rcases mem_build_alias_map_subs_elim _ _ _ _ he with h0 | ⟨a, ha, hmem⟩
  · simp at h0
  · rcases mem_build_alias_map_elim hmem with ⟨names, hin, hp⟩
    exact ⟨names, ⟨a, ha, hin⟩, hp⟩

lemma key_mem_collection_alias_map_of_chain {collection : Collection}
    {names : List String} {x : Alias} (base_path : String)
    (h : alias_chain collection names x) :
    path_join ([base_path, collection.name] ++ names ++ [x.name]) ∈
      (collection_alias_map collection base_path).map Prod.fst := by
  rcases h with ⟨a, ha, hin⟩
  exact key_mem_build_alias_map_subs_mem _ _ _ ha
    (key_mem_build_alias_map_of_chain hin _)

lemma path_join_pair (b cn : String) : path_join [b, cn] = b ++ "/" ++ cn := rfl

lemma path_join_two_cons (b cn : String) (l : List String) (h : l ≠ []) :
    path_join (b :: cn :: l) = (b ++ "/" ++ cn) ++ "/" ++ path_join l := by
  cases l with
  | nil => exact absurd rfl h
  | cons a t => simp [path_join, String.append_assoc]

lemma in_tree_names_ne_nil {a : Alias} {names : List String} {x : Alias}
    (h : InTree a names x) : names ≠ [] := by
  cases h <;> simp

lemma isPrefixOf_data_iff (dir p : String) :
    ((dir ++ "/").data.isPrefixOf p.data = true) ↔
      ∃ t : String, p = dir ++ "/" ++ t := by
  rw [List.isPrefixOf_iff_prefix]
  constructor
  · rintro ⟨t, ht⟩
    refine ⟨⟨t⟩, ?_⟩
    apply String.ext
    rw [String.data_append]
    exact ht.symm
  · rintro ⟨t, rfl⟩
    exact ⟨t.data, (String.data_append _ _).symm⟩

lemma mem_find_aliases {dir : String} {fs : FS} {f : String}
    (h : f ∈ find_aliases dir fs) : ∃ t : String, f = dir ++ "/" ++ t := by
  unfold find_aliases at h
  rcases List.mem_map.mp h with ⟨e, he, rfl⟩
  have := (List.mem_filter.mp he).2
  have hpre : ((dir ++ "/").data.isPrefixOf e.1.data) = true := by
    exact (Bool.and_eq_true _ _ ▸ this).1
  exact (isPrefixOf_data_iff dir e.1).mp hpre

lemma mem_find_snippets {dir : String} {fs : FS} {f : String}
    (h : f ∈ find_snippets dir fs) : ∃ t : String, f = dir ++ "/" ++ t := by
  unfold find_snippets at h
  rcases List.mem_map.mp h with ⟨e, he, rfl⟩
  have := (List.mem_filter.mp he).2
  have hpre : ((dir ++ "/").data.isPrefixOf e.1.data) = true := by
    exact (Bool.and_eq_true _ _ ▸ this).1
  exact (isPrefixOf_data_iff dir e.1).mp hpre

lemma find_aliases_nodup {dir : String} {fs : FS}
    (h : (fs.map Prod.fst).Nodup) : (find_aliases dir fs).Nodup := by
  unfold find_aliases
  exact ((List.filter_sublist fs).map Prod.fst).nodup h

lemma find_snippets_nodup {dir : String} {fs : FS}
    (h : (fs.map Prod.fst).Nodup) : (find_snippets dir fs).Nodup := by
  unfold find_snippets
  exact ((List.filter_sublist fs).map Prod.fst).nodup h

lemma alias_code_result_path (fs : FS) (base : String) (al : Alias) :
    (alias_code_result fs base al).alias_path = base ++ ".alias" := by
  unfold alias_code_result
  split
  · rfl
  · split <;> rfl

lemma alias_docs_result_path (fs : FS) (base : String) (al : Alias) :
    ∃ ext, ext ∈ [".md", ".markdown", ".MARKDOWN"] ∧
      (alias_docs_result fs base al).alias_path = base ++ ext := by
  cases hfind : (valid_doc_files base).find? (fun p => fs_exists fs p) with
  | none =>
    refine ⟨".md", by simp, ?_⟩
    simp only [alias_docs_result, hfind]
    rfl
  | some cp =>
    have hcp : cp ∈ valid_doc_files base := List.mem_of_find?_eq_some hfind
    unfold valid_doc_files at hcp
    rcases List.mem_cons.mp hcp with rfl | hcp
    · refine ⟨".md", by simp, ?_⟩
      simp only [alias_docs_result, hfind]
      split <;> rfl
    · rcases List.mem_cons.mp hcp with rfl | hcp
      · refine ⟨".markdown", by simp, ?_⟩
        simp only [alias_docs_result, hfind]
        split <;> rfl
      · rcases List.mem_cons.mp hcp with rfl | hcp
        · refine ⟨".MARKDOWN", by simp, ?_⟩
          simp only [alias_docs_result, hfind]
          split <;> rfl
        · simp at hcp

lemma snippet_code_result_path (fs : FS) (base : String) (s : Snippet) :
    (snippet_code_result fs base s).snippet_path = base ++ ".snippet" := by
  unfold snippet_code_result
  split
  · rfl
  · split <;> rfl

lemma snippet_docs_result_path (fs : FS) (base : String) (s : Snippet) :
    ∃ ext, ext ∈ [".md", ".markdown", ".MARKDOWN"] ∧
      (snippet_docs_result fs base s).snippet_path = base ++ ext := by
  cases hfind : (valid_doc_files base).find? (fun p => fs_exists fs p) with
  | none =>
    refine ⟨".md", by simp, ?_⟩
    simp only [snippet_docs_result, hfind]
    rfl
  | some cp =>
    have hcp : cp ∈ valid_doc_files base := List.mem_of_find?_eq_some hfind
    unfold valid_doc_files at hcp
    rcases List.mem_cons.mp hcp with rfl | hcp
    · refine ⟨".md", by simp, ?_⟩
      simp only [snippet_docs_result, hfind]
      split <;> rfl
    · rcases List.mem_cons.mp hcp with rfl | hcp
      · refine ⟨".markdown", by simp, ?_⟩
        simp only [snippet_docs_result, hfind]
        split <;> rfl
      · rcases List.mem_cons.mp hcp with rfl | hcp
        · refine ⟨".MARKDOWN", by simp, ?_⟩
          simp only [snippet_docs_result, hfind]
          split <;> rfl
        · simp at hcp

lemma alias_code_result_is_code (fs : FS) (base : String) (al : Alias) :
    (alias_code_result fs base al).is_code_classification = true := by
  unfold alias_code_result
  split
  · rfl
  · split <;> rfl

lemma alias_code_result_not_docs (fs : FS) (base : String) (al : Alias) :
    (alias_code_result fs base al).is_docs_classification = false := by
  unfold alias_code_result
  split
  · rfl
  · split <;> rfl

lemma alias_docs_result_is_docs (fs : FS) (base : String) (al : Alias) :
    (alias_docs_result fs base al).is_docs_classification = true := by
  cases hfind : (valid_doc_files base).find? (fun p => fs_exists fs p) with
  | none => simp only [alias_docs_result, hfind]; rfl
  | some cp =>
    simp only [alias_docs_result, hfind]
    split <;> rfl

lemma alias_docs_result_not_code (fs : FS) (base : String) (al : Alias) :
    (alias_docs_result fs base al).is_code_classification = false := by
  cases hfind : (valid_doc_files base).find? (fun p => fs_exists fs p) with
  | none => simp only [alias_docs_result, hfind]; rfl
  | some cp =>
    simp only [alias_docs_result, hfind]
    split <;> rfl

lemma snippet_code_result_is_code (fs : FS) (base : String) (s : Snippet) :
    (snippet_code_result fs base s).is_code_classification = true := by
  unfold snippet_code_result
  split
  · rfl
  · split <;> rfl

lemma snippet_code_result_not_docs (fs : FS) (base : String) (s : Snippet) :
    (snippet_code_result fs base s).is_docs_classification = false := by
  unfold snippet_code_result
  split
  · rfl
  · split <;> rfl

lemma snippet_docs_result_is_docs (fs : FS) (base : String) (s : Snippet) :
    (snippet_docs_result fs base s).is_docs_classification = true := by
  cases hfind : (valid_doc_files base).find? (fun p => fs_exists fs p) with
  | none => simp only [snippet_docs_result, hfind]; rfl
  | some cp =>
    simp only [snippet_docs_result, hfind]
    split <;> rfl

lemma snippet_docs_result_not_code (fs : FS) (base : String) (s : Snippet) :
    (snippet_docs_result fs base s).is_code_classification = false := by
  cases hfind : (valid_doc_files base).find? (fun p => fs_exists fs p) with
  | none => simp only [snippet_docs_result, hfind]; rfl
  | some cp =>
    simp only [snippet_docs_result, hfind]
    split <;> rfl

lemma alias_code_result_ne_not_found (fs : FS) (base : String) (al : Alias)
    (f : String) :
    alias_code_result fs base al ≠ .LocalAliasNotFoundInAvrae f := by
  unfold alias_code_result
  split
  · simp
  · split <;> simp

lemma alias_docs_result_ne_not_found (fs : FS) (base : String) (al : Alias)
    (f : String) :
    alias_docs_result fs base al ≠ .LocalAliasNotFoundInAvrae f := by
  cases hfind : (valid_doc_files base).find? (fun p => fs_exists fs p) with
  | none => simp only [alias_docs_result, hfind]; simp
  | some cp =>
    simp only [alias_docs_result, hfind]
    split <;> simp

lemma snippet_code_result_ne_not_found (fs : FS) (base : String) (s : Snippet)
    (f : String) :
    snippet_code_result fs base s ≠ .LocalSnippetNotFoundInAvrae f := by
  unfold snippet_code_result
  split
  · simp
  · split <;> simp

lemma snippet_docs_result_ne_not_found (fs : FS) (base : String) (s : Snippet)
    (f : String) :
    snippet_docs_result fs base s ≠ .LocalSnippetNotFoundInAvrae f := by
  cases hfind : (valid_doc_files base).find? (fun p => fs_exists fs p) with
  | none => simp only [snippet_docs_result, hfind]; simp
  | some cp =>
    simp only [snippet_docs_result, hfind]
    split <;> simp

lemma alias_code_result_of_absent {fs : FS} {base : String} (al : Alias)
    (h : fs_exists fs (base ++ ".alias") = false) :
    alias_code_result fs base al = .LocalAliasMissing (base ++ ".alias") al := by
  simp [alias_code_result, h]

lemma alias_code_result_of_match {fs : FS} {base : String} {al : Alias}
    (h1 : fs_exists fs (base ++ ".alias") = true)
    (h2 : fs_read fs (base ++ ".alias") = al.code) :
    alias_code_result fs base al = .LocalAliasMatchesAvrae (base ++ ".alias") al := by
  simp [alias_code_result, h1, h2]

lemma alias_code_result_of_mismatch {fs : FS} {base : String} {al : Alias}
    (h1 : fs_exists fs (base ++ ".alias") = true)
    (h2 : fs_read fs (base ++ ".alias") ≠ al.code) :
    alias_code_result fs base al =
      .LocalAliasDoesNotMatchAvrae (base ++ ".alias") al := by
  simp [alias_code_result, h1, h2]

lemma snippet_code_result_of_absent {fs : FS} {base : String} (s : Snippet)
    (h : fs_exists fs (base ++ ".snippet") = false) :
    snippet_code_result fs base s = .LocalSnippetMissing (base ++ ".snippet") s := by
  simp [snippet_code_result, h]

lemma snippet_code_result_of_match {fs : FS} {base : String} {s : Snippet}
    (h1 : fs_exists fs (base ++ ".snippet") = true)
    (h2 : fs_read fs (base ++ ".snippet") = s.code) :
    snippet_code_result fs base s =
      .LocalSnippetMatchesAvrae (base ++ ".snippet") s := by
  simp [snippet_code_result, h1, h2]

lemma snippet_code_result_of_mismatch {fs : FS} {base : String} {s : Snippet}
    (h1 : fs_exists fs (base ++ ".snippet") = true)
    (h2 : fs_read fs (base ++ ".snippet") ≠ s.code) :
    snippet_code_result fs base s =
      .LocalSnippetDoesNotMatchAvrae (base ++ ".snippet") s := by
  simp [snippet_code_result, h1, h2]

lemma build_gvar_comparison_of_no_remote {gvars : List Gvar} {fs : FS}
    {k p : String} (h : gvars.find? (fun g => g.key == k) = none) :
    build_gvar_comparison gvars fs k p = .LocalGvarNotFoundInAvrae p := by
  simp [build_gvar_comparison, h]

lemma build_gvar_comparison_of_absent {gvars : List Gvar} {fs : FS}
    {k p : String} {g : Gvar} (h : gvars.find? (fun g => g.key == k) = some g)
    (h2 : fs_exists fs p = false) :
    build_gvar_comparison gvars fs k p = .LocalGvarMissing p g := by
  simp [build_gvar_comparison, h, h2]

lemma build_gvar_comparison_of_match {gvars : List Gvar} {fs : FS}
    {k p : String} {g : Gvar} (h : gvars.find? (fun g => g.key == k) = some g)
    (h2 : fs_exists fs p = true) (h3 : fs_read fs p = g.value) :
    build_gvar_comparison gvars fs k p = .LocalGvarMatchesAvrae p g := by
  simp [build_gvar_comparison, h, h2, h3]

lemma build_gvar_comparison_of_mismatch {gvars : List Gvar} {fs : FS}
    {k p : String} {g : Gvar} (h : gvars.find? (fun g => g.key == k) = some g)
    (h2 : fs_exists fs p = true) (h3 : fs_read fs p ≠ g.value) :
    build_gvar_comparison gvars fs k p = .LocalGvarDoesNotMatchAvrae p g := by
  simp [build_gvar_comparison, h, h2, h3]

lemma find?_congr_on {α : Type} {l : List α} {p q : α → Bool}
    (h : ∀ x ∈ l, p x = q x) : l.find? p = l.find? q := by
  induction l with
  | nil => rfl
  | cons a t ih =>
    rw [List.find?_cons, List.find?_cons, h a (List.mem_cons_self a t)]
    cases q a with
    | true => rfl
    | false => exact ih (fun x hx => h x (List.mem_cons_of_mem a hx))

lemma gvar_find?_eq_find?_filter {keys : List String} {k : String}
    (hk : keys.contains k = true) (l : List Gvar) :
    l.find? (fun g => g.key == k) =
      (l.filter (fun g => keys.contains g.key)).find? (fun g => g.key == k) := by
  induction l with
  | nil => rfl
  | cons g t ih =>
    by_cases hgk : (g.key == k) = true
    · have hgke : g.key = k := by simpa using hgk
      have hc : keys.contains g.key = true := by rw [hgke]; exact hk
      rw [List.filter_cons, if_pos hc, List.find?_cons, List.find?_cons, hgk]
    · have hgk' : (g.key == k) = false := by
        cases hb : (g.key == k) with
        | true => exact absurd hb hgk
        | false => rfl
      rw [List.filter_cons]
      by_cases hc : keys.contains g.key = true
      · rw [if_pos hc, List.find?_cons, List.find?_cons, hgk']
        exact ih
      · rw [if_neg hc, List.find?_cons, hgk']
        exact ih

/-- C1: for every alias of the derived path-to-alias mapping exactly one
code-comparison result is emitted, three-way classified: `LocalAliasMissing`
when the `.alias` file does not exist, `LocalAliasMatchesAvrae` when its
content equals the remote code exactly, `LocalAliasDoesNotMatchAvrae`
otherwise. -/
theorem C1_alias_code_three_way (fs : FS) (base : String) (al : Alias) :
    ((build_alias_comparison fs base al).filter
        AliasResult.is_code_classification).length = 1
    ∧ (fs_exists fs (base ++ ".alias") = false →
        AliasResult.LocalAliasMissing (base ++ ".alias") al ∈
          build_alias_comparison fs base al)
    ∧ (fs_exists fs (base ++ ".alias") = true →
        fs_read fs (base ++ ".alias") = al.code →
        AliasResult.LocalAliasMatchesAvrae (base ++ ".alias") al ∈
          build_alias_comparison fs base al)
    ∧ (fs_exists fs (base ++ ".alias") = true →
        fs_read fs (base ++ ".alias") ≠ al.code →
        AliasResult.LocalAliasDoesNotMatchAvrae (base ++ ".alias") al ∈
          build_alias_comparison fs base al) := by
  refine ⟨?_, ?_, ?_, ?_⟩
  · simp [build_alias_comparison, List.filter_cons,
      alias_code_result_is_code, alias_docs_result_not_code]
  · intro h
    rw [build_alias_comparison, ← alias_code_result_of_absent al h]
    exact List.mem_cons_self _ _
  · intro h1 h2
    rw [build_alias_comparison, ← alias_code_result_of_match h1 h2]
    exact List.mem_cons_self _ _
  · intro h1 h2
    rw [build_alias_comparison, ← alias_code_result_of_mismatch h1 h2]
    exact List.mem_cons_self _ _

/-- C1 witness: concrete missing and matching instances. -/
theorem C1_alias_code_three_way_witness :
    AliasResult.LocalAliasMissing ("b" ++ ".alias") (Alias.mk "A" "c" "d" []) ∈
      build_alias_comparison [] "b" (Alias.mk "A" "c" "d" [])
    ∧ AliasResult.LocalAliasMatchesAvrae ("b" ++ ".alias") (Alias.mk "A" "c" "d" []) ∈
      build_alias_comparison [("b.alias", "c")] "b" (Alias.mk "A" "c" "d" []) :=
  ⟨(C1_alias_code_three_way [] "b" (Alias.mk "A" "c" "d" [])).2.1 rfl,
   (C1_alias_code_three_way [("b.alias", "c")] "b"
      (Alias.mk "A" "c" "d" [])).2.2.1 rfl rfl⟩

/-- C4: documentation probing tries base+`.md`, base+`.markdown`,
base+`.MARKDOWN` in that fixed order and reads only the first existing
candidate; the missing result reports the first candidate path; `.md` wins
whenever it exists; an existing candidate is compared by exact equality.
Identically for snippets. -/
theorem C4_docs_probe_order (fs : FS) (base : String) (al : Alias)
    (sn : Snippet) :
    ((valid_doc_files base).find? (fun p => fs_exists fs p) = none →
       alias_docs_result fs base al = .LocalAliasDocsMissing (base ++ ".md") al
       ∧ snippet_docs_result fs base sn =
           .LocalSnippetDocsMissing (base ++ ".md") sn)
    ∧ (∀ cp, (valid_doc_files base).find? (fun p => fs_exists fs p) = some cp →
       (alias_docs_result fs base al =
          if fs_read fs cp == al.docs then .LocalAliasDocsMatchAvrae cp al
          else .LocalAliasDocsDoNotMatchAvrae cp al)
       ∧ (snippet_docs_result fs base sn =
          if fs_read fs cp == sn.docs then .LocalSnippetDocsMatchAvrae cp sn
          else .LocalSnippetDocsDoNotMatchAvrae cp sn))
    ∧ (fs_exists fs (base ++ ".md") = true →
       (valid_doc_files base).find? (fun p => fs_exists fs p) =
         some (base ++ ".md")) := by
  refine ⟨?_, ?_, ?_⟩
  · intro h
    constructor
    · simp only [alias_docs_result, h]
    · simp only [snippet_docs_result, h]
  · intro cp h
    constructor
    · simp only [alias_docs_result, h]
    · simp only [snippet_docs_result, h]
  · intro h
    simp [valid_doc_files, List.find?_cons, h]

/-- C4 witness: a concrete tree with both `.md` and `.markdown` present, where
only `.md` is chosen, and a tree with no docs file. -/
theorem C4_docs_probe_order_witness :
    ((valid_doc_files "b").find? (fun p =>
        fs_exists [("b.md", "x"), ("b.markdown", "y")] p) = some ("b" ++ ".md"))
    ∧ alias_docs_result [("b.md", "x"), ("b.markdown", "y")] "b"
        (Alias.mk "A" "c" "x" []) =
        .LocalAliasDocsMatchAvrae ("b" ++ ".md") (Alias.mk "A" "c" "x" [])
    ∧ alias_docs_result [] "b" (Alias.mk "A" "c" "d" []) =
        .LocalAliasDocsMissing ("b" ++ ".md") (Alias.mk "A" "c" "d" []) := by
  refine ⟨?_, ?_, ?_⟩
  · exact (C4_docs_probe_order [("b.md", "x"), ("b.markdown", "y")] "b"
      (Alias.mk "A" "c" "x" []) ⟨"s", "c", "d"⟩).2.2 rfl
  · have h := ((C4_docs_probe_order [("b.md", "x"), ("b.markdown", "y")] "b"
      (Alias.mk "A" "c" "x" []) ⟨"s", "c", "d"⟩).2.1 ("b" ++ ".md") rfl).1
    rw [h]
    rfl
  · exact ((C4_docs_probe_order [] "b" (Alias.mk "A" "c" "d" [])
      ⟨"s", "c", "d"⟩).1 rfl).1

/-- C6: global-variable comparison yields exactly one result per configured
key, in mapping order; an unknown remote key is `LocalGvarNotFoundInAvrae`
regardless of the local file, a known key with no local file is
`LocalGvarMissing`, and otherwise content comparison decides between
`LocalGvarMatchesAvrae` and `LocalGvarDoesNotMatchAvrae`. -/
theorem C6_gvar_classification (gvars : List Gvar)
    (config : List (String × String)) (base : String) (fs : FS)
    (k p : String) :
    compare_gvars gvars config base fs =
      config.map (fun e =>
        build_gvar_comparison gvars fs e.1 (path_join [base, e.2]))
    ∧ (gvars.find? (fun g => g.key == k) = none →
        build_gvar_comparison gvars fs k p = .LocalGvarNotFoundInAvrae p)
    ∧ (∀ g, gvars.find? (fun g => g.key == k) = some g →
        fs_exists fs p = false →
        build_gvar_comparison gvars fs k p = .LocalGvarMissing p g)
    ∧ (∀ g, gvars.find? (fun g => g.key == k) = some g →
        fs_exists fs p = true → fs_read fs p = g.value →
        build_gvar_comparison gvars fs k p = .LocalGvarMatchesAvrae p g)
    ∧ (∀ g, gvars.find? (fun g => g.key == k) = some g →
        fs_exists fs p = true → fs_read fs p ≠ g.value →
        build_gvar_comparison gvars fs k p = .LocalGvarDoesNotMatchAvrae p g) :=
  ⟨rfl,
   fun h => build_gvar_comparison_of_no_remote h,
   fun _ h h2 => build_gvar_comparison_of_absent h h2,
   fun _ h h2 h3 => build_gvar_comparison_of_match h h2 h3,
   fun _ h h2 h3 => build_gvar_comparison_of_mismatch h h2 h3⟩

/-- C6 witness: the spec's sample — configured key `k1` at `v1.gvar`, remote
value exists, local file absent, giving `LocalGvarMissing`; and a key with no
remote variable giving `LocalGvarNotFoundInAvrae` although the file exists. -/
theorem C6_gvar_classification_witness :
    build_gvar_comparison [⟨"k1", "X"⟩] [] "k1" ("r" ++ "/" ++ "v1.gvar") =
      .LocalGvarMissing ("r" ++ "/" ++ "v1.gvar") ⟨"k1", "X"⟩
    ∧ build_gvar_comparison [] [("r/v1.gvar", "X")] "k1" ("r" ++ "/" ++ "v1.gvar") =
      .LocalGvarNotFoundInAvrae ("r" ++ "/" ++ "v1.gvar") :=
  ⟨(C6_gvar_classification [⟨"k1", "X"⟩] [] "r" [] "k1"
      ("r" ++ "/" ++ "v1.gvar")).2.2.1 ⟨"k1", "X"⟩ rfl rfl,
   (C6_gvar_classification [] [] "r" [("r/v1.gvar", "X")] "k1"
      ("r" ++ "/" ++ "v1.gvar")).2.1 rfl⟩

/-- C7: gvar comparison only consults remote variables whose key is configured;
two remote lists that agree on the configured keys produce identical results. -/
theorem C7_gvar_noninterference (gvars₁ gvars₂ : List Gvar)
    (config : List (String × String)) (base : String) (fs : FS)
    (h : gvars₁.filter (fun g => (config.map Prod.fst).contains g.key) =
         gvars₂.filter (fun g => (config.map Prod.fst).contains g.key)) :
    compare_gvars gvars₁ config base fs = compare_gvars gvars₂ config base fs := by
  unfold compare_gvars
  apply List.map_congr_left
  intro e he
  have hk : (config.map Prod.fst).contains e.1 = true :=
    List.elem_iff.mpr (List.mem_map_of_mem Prod.fst he)
  unfold build_gvar_comparison
  rw [gvar_find?_eq_find?_filter hk gvars₁, gvar_find?_eq_find?_filter hk gvars₂, h]

/-- C7 witness: adding an unlisted remote variable does not change the result. -/
theorem C7_gvar_noninterference_witness :
    compare_gvars [⟨"a", "1"⟩, ⟨"z", "9"⟩] [("a", "a.gvar")] "r" [] =
      compare_gvars [⟨"a", "1"⟩] [("a", "a.gvar")] "r" [] :=
  C7_gvar_noninterference [⟨"a", "1"⟩, ⟨"z", "9"⟩] [⟨"a", "1"⟩]
    [("a", "a.gvar")] "r" [] rfl

/-- C10: every alias and snippet of the mapping contributes exactly two
results — one code classification and one docs classification — the docs
result is emitted unconditionally (a docs-missing result appears even for an
empty remote docs string), and the docs classification only depends on the
state of the three docs candidate files, not on the code file. -/
theorem C10_two_results_per_entity (fs : FS) (base : String) (al : Alias)
    (sn : Snippet) :
    (build_alias_comparison fs base al).length = 2
    ∧ ((build_alias_comparison fs base al).filter
        AliasResult.is_code_classification).length = 1
    ∧ ((build_alias_comparison fs base al).filter
        AliasResult.is_docs_classification).length = 1
    ∧ ((valid_doc_files base).find? (fun p => fs_exists fs p) = none →
        alias_docs_result fs base al = .LocalAliasDocsMissing (base ++ ".md") al)
    ∧ (∀ fs₂ : FS, (∀ q ∈ valid_doc_files base,
          fs_exists fs q = fs_exists fs₂ q ∧ fs_read fs q = fs_read fs₂ q) →
        alias_docs_result fs base al = alias_docs_result fs₂ base al)
    ∧ (build_snippet_comparison fs base sn).length = 2
    ∧ ((build_snippet_comparison fs base sn).filter
        SnippetResult.is_code_classification).length = 1
    ∧ ((build_snippet_comparison fs base sn).filter
        SnippetResult.is_docs_classification).length = 1
    ∧ ((valid_doc_files base).find? (fun p => fs_exists fs p) = none →
        snippet_docs_result fs base sn =
          .LocalSnippetDocsMissing (base ++ ".md") sn)
    ∧ (∀ fs₂ : FS, (∀ q ∈ valid_doc_files base,
          fs_exists fs q = fs_exists fs₂ q ∧ fs_read fs q = fs_read fs₂ q) →
        snippet_docs_result fs base sn = snippet_docs_result fs₂ base sn) := by
  refine ⟨rfl, ?_, ?_, ?_, ?_, rfl, ?_, ?_, ?_, ?_⟩
  · simp [build_alias_comparison, List.filter_cons,
      alias_code_result_is_code, alias_docs_result_not_code]
  · simp [build_alias_comparison, List.filter_cons,
      alias_code_result_not_docs, alias_docs_result_is_docs]
  · intro h
    simp only [alias_docs_result, h]
  · intro fs₂ hagree
    have hf : (valid_doc_files base).find? (fun p => fs_exists fs p) =
        (valid_doc_files base).find? (fun p => fs_exists fs₂ p) :=
      find?_congr_on (fun x hx => (hagree x hx).1)
    cases hfind : (valid_doc_files base).find? (fun p => fs_exists fs p) with
    | none =>
      have hfind₂ := hf.symm.trans hfind
      simp only [alias_docs_result, hfind, hfind₂]
    | some cp =>
      have hfind₂ := hf.symm.trans hfind
      have hcp : cp ∈ valid_doc_files base := List.mem_of_find?_eq_some hfind
      have hread : fs_read fs cp = fs_read fs₂ cp := (hagree cp hcp).2
      simp only [alias_docs_result, hfind, hfind₂, hread]
  · simp [build_snippet_comparison, List.filter_cons,
      snippet_code_result_is_code, snippet_docs_result_not_code]
  · simp [build_snippet_comparison, List.filter_cons,
      snippet_code_result_not_docs, snippet_docs_result_is_docs]
  · intro h
    simp only [snippet_docs_result, h]
  · intro fs₂ hagree
    have hf : (valid_doc_files base).find? (fun p => fs_exists fs p) =
        (valid_doc_files base).find? (fun p => fs_exists fs₂ p) :=
      find?_congr_on (fun x hx => (hagree x hx).1)
    cases hfind : (valid_doc_files base).find? (fun p => fs_exists fs p) with
    | none =>
      have hfind₂ := hf.symm.trans hfind
      simp only [snippet_docs_result, hfind, hfind₂]
    | some cp =>
      have hfind₂ := hf.symm.trans hfind
      have hcp : cp ∈ valid_doc_files base := List.mem_of_find?_eq_some hfind
      have hread : fs_read fs cp = fs_read fs₂ cp := (hagree cp hcp).2
      simp only [snippet_docs_result, hfind, hfind₂, hread]

/-- C10 witness: a remote alias and snippet with empty docs and no local files
still produce the docs-missing result, and the docs classification is stable
under an unchanged filesystem. -/
theorem C10_two_results_per_entity_witness :
    alias_docs_result [] "b" (Alias.mk "A" "c" "" []) =
      .LocalAliasDocsMissing ("b" ++ ".md") (Alias.mk "A" "c" "" [])
    ∧ snippet_docs_result [] "b" ⟨"s", "c", ""⟩ =
      .LocalSnippetDocsMissing ("b" ++ ".md") ⟨"s", "c", ""⟩
    ∧ alias_docs_result [("b.alias", "c")] "b" (Alias.mk "A" "c" "" []) =
      alias_docs_result [] "b" (Alias.mk "A" "c" "" []) :=
  ⟨(C10_two_results_per_entity [] "b" (Alias.mk "A" "c" "" [])
      ⟨"s", "c", ""⟩).2.2.2.1 rfl,
   (C10_two_results_per_entity [] "b" (Alias.mk "A" "c" "" [])
      ⟨"s", "c", ""⟩).2.2.2.2.2.2.2.2.1 rfl,
   (C10_two_results_per_entity [("b.alias", "c")] "b" (Alias.mk "A" "c" "" [])
      ⟨"s", "c", ""⟩).2.2.2.2.1 [] (fun q hq => by
        fin_cases hq <;> exact ⟨rfl, rfl⟩)⟩

/-- The sub-alias of the spec's sample scenario: `B` with code `"bar"`. -/
def sample_B : Alias := .mk "B" "bar" "" []

/-- The top-level alias of the spec's sample scenario: `A` with code `"foo"`,
docs `"doc"` and one sub-alias `B`. -/
def sample_A : Alias := .mk "A" "foo" "doc" [sample_B]

/-- The collection `C` of the spec's sample scenario. -/
def sample_collection : Collection := ⟨"C", [sample_A], []⟩

/-- The sample local tree: `C/A/A.alias` = "foo", no `C/A/A.md`,
`C/A/B/B.alias` = "baz", and a stray `C/A/extra.alias`. -/
def sample_fs : FS :=
  [("repo/C/A/A.alias", "foo"), ("repo/C/A/B/B.alias", "baz"),
   ("repo/C/A/extra.alias", "x")]

lemma sample_alias_map :
    collection_alias_map sample_collection "repo" =
      [("repo/C/A/A", sample_A), ("repo/C/A/B/B", sample_B)] := by
  simp [collection_alias_map, build_alias_map_subs, build_alias_map,
    dict_update_many, dict_update, path_join, sample_A, sample_B,
    sample_collection]

lemma sample_comparison_eval :
    compare_aliases sample_fs sample_collection "repo" =
      [.LocalAliasMatchesAvrae "repo/C/A/A.alias" sample_A,
       .LocalAliasDocsMissing "repo/C/A/A.md" sample_A,
       .LocalAliasDoesNotMatchAvrae "repo/C/A/B/B.alias" sample_B,
       .LocalAliasDocsMissing "repo/C/A/B/B.md" sample_B,
       .LocalAliasNotFoundInAvrae "repo/C/A/extra.alias"] := by
  simp only [compare_aliases, sample_alias_map]
  rfl

/-- Whether an alias result is `LocalAliasNotFoundInAvrae` at exactly path `f`. -/
def alias_not_found_for (f : String) : AliasResult → Bool
  | .LocalAliasNotFoundInAvrae p => p == f
  | _ => false

/-- Whether a snippet result is `LocalSnippetNotFoundInAvrae` at path `f`. -/
def snippet_not_found_for (f : String) : SnippetResult → Bool
  | .LocalSnippetNotFoundInAvrae p => p == f
  | _ => false

lemma compare_aliases_eq (fs : FS) (c : Collection) (b : String) :
    compare_aliases fs c b =
      ((collection_alias_map c b).map
        (fun e => build_alias_comparison fs e.1 e.2)).flatten ++
      ((find_aliases (path_join [b, c.name]) fs).filter
        (fun f => ! ((collection_alias_map c b).map
          (fun e => e.1 ++ ".alias")).contains f)).map
        AliasResult.LocalAliasNotFoundInAvrae := rfl

lemma compare_snippets_eq (fs : FS) (c : Collection) (b : String) :
    compare_snippets fs c b =
      ((collection_snippet_map c b).map
        (fun e => build_snippet_comparison fs e.1 e.2)).flatten ++
      ((find_snippets (path_join [b, c.name, "snippets"]) fs).filter
        (fun f => ! ((collection_snippet_map c b).map
          (fun e => e.1 ++ ".snippet")).contains f)).map
        SnippetResult.LocalSnippetNotFoundInAvrae := rfl

lemma mem_build_alias_comparison {r : AliasResult} {fs : FS} {base : String}
    {al : Alias} (h : r ∈ build_alias_comparison fs base al) :
    r = alias_code_result fs base al ∨ r = alias_docs_result fs base al := by
  simpa [build_alias_comparison] using h

lemma mem_build_snippet_comparison {r : SnippetResult} {fs : FS}
    {base : String} {s : Snippet} (h : r ∈ build_snippet_comparison fs base s) :
    r = snippet_code_result fs base s ∨ r = snippet_docs_result fs base s := by
  simpa [build_snippet_comparison] using h

lemma alias_not_found_for_eq_true {f : String} {r : AliasResult}
    (h : alias_not_found_for f r = true) :
    r = .LocalAliasNotFoundInAvrae f := by
  cases r with
  | LocalAliasNotFoundInAvrae p =>
    have hp : p = f := by simpa [alias_not_found_for] using h
    rw [hp]
  | LocalAliasMatchesAvrae p al => simp [alias_not_found_for] at h
  | LocalAliasDocsMatchAvrae p al => simp [alias_not_found_for] at h
  | LocalAliasMissing p al => simp [alias_not_found_for] at h
  | LocalAliasDocsMissing p al => simp [alias_not_found_for] at h
  | LocalAliasDoesNotMatchAvrae p al => simp [alias_not_found_for] at h
  | LocalAliasDocsDoNotMatchAvrae p al => simp [alias_not_found_for] at h

lemma snippet_not_found_for_eq_true {f : String} {r : SnippetResult}
    (h : snippet_not_found_for f r = true) :
    r = .LocalSnippetNotFoundInAvrae f := by
  cases r with
  | LocalSnippetNotFoundInAvrae p =>
    have hp : p = f := by simpa [snippet_not_found_for] using h
    rw [hp]
  | LocalSnippetMatchesAvrae p s => simp [snippet_not_found_for] at h
  | LocalSnippetDocsMatchAvrae p s => simp [snippet_not_found_for] at h
  | LocalSnippetMissing p s => simp [snippet_not_found_for] at h
  | LocalSnippetDocsMissing p s => simp [snippet_not_found_for] at h
  | LocalSnippetDoesNotMatchAvrae p s => simp [snippet_not_found_for] at h
  | LocalSnippetDocsDoNotMatchAvrae p s => simp [snippet_not_found_for] at h

lemma filter_beq_length_one {l : List String} {f : String} (hnd : l.Nodup)
    (hm : f ∈ l) : (l.filter (fun p => p == f)).length = 1 := by
  induction l with
  | nil => simp at hm
  | cons a t ih =>
    rw [List.nodup_cons] at hnd
    rcases List.mem_cons.mp hm with rfl | hft
    · rw [List.filter_cons, if_pos (by simp)]
      have hnil : t.filter (fun p => p == f) = [] := by
        rw [List.filter_eq_nil_iff]
        intro x hx hbx
        exact hnd.1 ((show x = f by simpa using hbx) ▸ hx)
      simp [hnil]
    · have haf : (a == f) = false := by
        rw [beq_eq_false_iff_ne]
        rintro rfl
        exact hnd.1 hft
      rw [List.filter_cons, if_neg (by simp [haf])]
      exact ih hnd.2 hft

/-- C8: every walked code file that is not an expected file of the derived
mapping yields exactly one not-found result, and a file that is an expected
file never yields a not-found result, for aliases and for snippets alike. -/
theorem C8_orphan_sweep (fs : FS) (collection : Collection)
    (base_path : String) (hnd : (fs.map Prod.fst).Nodup) :
    (∀ f, f ∈ find_aliases (path_join [base_path, collection.name]) fs →
       f ∉ (collection_alias_map collection base_path).map
         (fun e => e.1 ++ ".alias") →
       ((compare_aliases fs collection base_path).filter
         (alias_not_found_for f)).length = 1)
    ∧ (∀ f, f ∈ (collection_alias_map collection base_path).map
         (fun e => e.1 ++ ".alias") →
       AliasResult.LocalAliasNotFoundInAvrae f ∉
         compare_aliases fs collection base_path)
    ∧ (∀ f, f ∈ find_snippets
         (path_join [base_path, collection.name, "snippets"]) fs →
       f ∉ (collection_snippet_map collection base_path).map
         (fun e => e.1 ++ ".snippet") →
       ((compare_snippets fs collection base_path).filter
         (snippet_not_found_for f)).length = 1)
    ∧ (∀ f, f ∈ (collection_snippet_map collection base_path).map
         (fun e => e.1 ++ ".snippet") →
       SnippetResult.LocalSnippetNotFoundInAvrae f ∉
         compare_snippets fs collection base_path) := by
  refine ⟨?_, ?_, ?_, ?_⟩
  · intro f hfind hnot
    rw [compare_aliases_eq, List.filter_append]
    have hchunk : (((collection_alias_map collection base_path).map
        (fun e => build_alias_comparison fs e.1 e.2)).flatten).filter
        (alias_not_found_for f) = [] := by
      rw [List.filter_eq_nil_iff]
      intro r hr hb
      rcases List.mem_flatten.mp hr with ⟨l, hl, hrl⟩
      rcases List.mem_map.mp hl with ⟨e, _, rfl⟩
      have hrnf := alias_not_found_for_eq_true hb
      rcases mem_build_alias_comparison hrl with heq | heq
      · exact alias_code_result_ne_not_found fs e.1 e.2 f (heq ▸ hrnf)
      · exact alias_docs_result_ne_not_found fs e.1 e.2 f (heq ▸ hrnf)
    rw [hchunk, List.nil_append, List.filter_map]
    have hcomp : (alias_not_found_for f ∘ AliasResult.LocalAliasNotFoundInAvrae) =
        (fun p => p == f) := rfl
    rw [hcomp, List.length_map]
    apply filter_beq_length_one
    · exact ((List.filter_sublist _).nodup (find_aliases_nodup hnd))
    · refine List.mem_filter.mpr ⟨hfind, ?_⟩
      have hcont : ((collection_alias_map collection base_path).map
          (fun e => e.1 ++ ".alias")).contains f = false := by
        cases hb : ((collection_alias_map collection base_path).map
            (fun e => e.1 ++ ".alias")).contains f with
        | true => exact absurd (List.elem_iff.mp hb) hnot
        | false => rfl
      show (! ((collection_alias_map collection base_path).map
        (fun e => e.1 ++ ".alias")).contains f) = true
      rw [hcont]
      rfl
  · intro f hf hmem
    rw [compare_aliases_eq] at hmem
    rcases List.mem_append.mp hmem with hchunk | hsweep
    · rcases List.mem_flatten.mp hchunk with ⟨l, hl, hrl⟩
      rcases List.mem_map.mp hl with ⟨e, _, rfl⟩
      rcases mem_build_alias_comparison hrl with heq | heq
      · exact alias_code_result_ne_not_found fs e.1 e.2 f heq.symm
      · exact alias_docs_result_ne_not_found fs e.1 e.2 f heq.symm
    · rcases List.mem_map.mp hsweep with ⟨p, hp, hpe⟩
      have hpf : p = f := by simpa using hpe
      subst hpf
      have hfilter : (! ((collection_alias_map collection base_path).map
          (fun e => e.1 ++ ".alias")).contains p) = true :=
        (List.mem_filter.mp hp).2
      have hcontains : ((collection_alias_map collection base_path).map
          (fun e => e.1 ++ ".alias")).contains p = true := List.elem_iff.mpr hf
      rw [hcontains] at hfilter
      simp at hfilter
  · intro f hfind hnot
    rw [compare_snippets_eq, List.filter_append]
    have hchunk : (((collection_snippet_map collection base_path).map
        (fun e => build_snippet_comparison fs e.1 e.2)).flatten).filter
        (snippet_not_found_for f) = [] := by
      rw [List.filter_eq_nil_iff]
      intro r hr hb
      rcases List.mem_flatten.mp hr with ⟨l, hl, hrl⟩
      rcases List.mem_map.mp hl with ⟨e, _, rfl⟩
      have hrnf := snippet_not_found_for_eq_true hb
      rcases mem_build_snippet_comparison hrl with heq | heq
      · exact snippet_code_result_ne_not_found fs e.1 e.2 f (heq ▸ hrnf)
      · exact snippet_docs_result_ne_not_found fs e.1 e.2 f (heq ▸ hrnf)
    rw [hchunk, List.nil_append, List.filter_map]
    have hcomp : (snippet_not_found_for f ∘
        SnippetResult.LocalSnippetNotFoundInAvrae) = (fun p => p == f) := rfl
    rw [hcomp, List.length_map]
    apply filter_beq_length_one
    · exact ((List.filter_sublist _).nodup (find_snippets_nodup hnd))
    · refine List.mem_filter.mpr ⟨hfind, ?_⟩
      have hcont : ((collection_snippet_map collection base_path).map
          (fun e => e.1 ++ ".snippet")).contains f = false := by
        cases hb : ((collection_snippet_map collection base_path).map
            (fun e => e.1 ++ ".snippet")).contains f with
        | true => exact absurd (List.elem_iff.mp hb) hnot
        | false => rfl
      show (! ((collection_snippet_map collection base_path).map
        (fun e => e.1 ++ ".snippet")).contains f) = true
      rw [hcont]
      rfl
  · intro f hf hmem
    rw [compare_snippets_eq] at hmem
    rcases List.mem_append.mp hmem with hchunk | hsweep
    · rcases List.mem_flatten.mp hchunk with ⟨l, hl, hrl⟩
      rcases List.mem_map.mp hl with ⟨e, _, rfl⟩
      rcases mem_build_snippet_comparison hrl with heq | heq
      · exact snippet_code_result_ne_not_found fs e.1 e.2 f heq.symm
      · exact snippet_docs_result_ne_not_found fs e.1 e.2 f heq.symm
    · rcases List.mem_map.mp hsweep with ⟨p, hp, hpe⟩
      have hpf : p = f := by simpa using hpe
      subst hpf
      have hfilter : (! ((collection_snippet_map collection base_path).map
          (fun e => e.1 ++ ".snippet")).contains p) = true :=
        (List.mem_filter.mp hp).2
      have hcontains : ((collection_snippet_map collection base_path).map
          (fun e => e.1 ++ ".snippet")).contains p = true := List.elem_iff.mpr hf
      rw [hcontains] at hfilter
      simp at hfilter

/-- C8 witness: in the sample scenario the stray `extra.alias` is reported by
exactly one not-found result, and the expected file of `A` never is. -/
theorem C8_orphan_sweep_witness :
    ((compare_aliases sample_fs sample_collection "repo").filter
      (alias_not_found_for "repo/C/A/extra.alias")).length = 1
    ∧ AliasResult.LocalAliasNotFoundInAvrae "repo/C/A/A.alias" ∉
      compare_aliases sample_fs sample_collection "repo" :=
  ⟨(C8_orphan_sweep sample_fs sample_collection "repo" (by decide)).1
      "repo/C/A/extra.alias" (by decide)
      (by rw [sample_alias_map]; decide),
   (C8_orphan_sweep sample_fs sample_collection "repo" (by decide)).2.1
      "repo/C/A/A.alias" (by rw [sample_alias_map]; decide)⟩

lemma find?_docs_after_write (fs : FS) (base : String) {cp : String}
    (v : String)
    (hfind : (valid_doc_files base).find? (fun p => fs_exists fs p) = some cp) :
    (valid_doc_files base).find?
      (fun p => fs_exists (fs_write fs cp v) p) = some cp := by
  unfold valid_doc_files at hfind ⊢
  by_cases h1 : fs_exists fs (base ++ ".md") = true
  · have hcp : base ++ ".md" = cp := by
      simpa [List.find?_cons, h1] using hfind
    subst hcp
    simp [List.find?_cons, fs_exists_fs_write_self]
  · have h1' : fs_exists fs (base ++ ".md") = false := by
      cases hb : fs_exists fs (base ++ ".md") with
      | true => exact absurd hb h1
      | false => rfl
    by_cases h2 : fs_exists fs (base ++ ".markdown") = true
    · have hcp : base ++ ".markdown" = cp := by
        simpa [List.find?_cons, h1', h2] using hfind
      subst hcp
      have hmd : fs_exists (fs_write fs (base ++ ".markdown") v)
          (base ++ ".md") = fs_exists fs (base ++ ".md") :=
        fs_exists_fs_write_ne fs _ v (str_append_ne (by decide))
      simp [List.find?_cons, hmd, h1', fs_exists_fs_write_self]
    · have h2' : fs_exists fs (base ++ ".markdown") = false := by
        cases hb : fs_exists fs (base ++ ".markdown") with
        | true => exact absurd hb h2
        | false => rfl
      by_cases h3 : fs_exists fs (base ++ ".MARKDOWN") = true
      · have hcp : base ++ ".MARKDOWN" = cp := by
          simpa [List.find?_cons, h1', h2', h3] using hfind
        subst hcp
        have hmd : fs_exists (fs_write fs (base ++ ".MARKDOWN") v)
            (base ++ ".md") = fs_exists fs (base ++ ".md") :=
          fs_exists_fs_write_ne fs _ v (str_append_ne (by decide))
        have hmdn : fs_exists (fs_write fs (base ++ ".MARKDOWN") v)
            (base ++ ".markdown") = fs_exists fs (base ++ ".markdown") :=
          fs_exists_fs_write_ne fs _ v (str_append_ne (by decide))
        simp [List.find?_cons, hmd, hmdn, h1', h2', fs_exists_fs_write_self]
      · have h3' : fs_exists fs (base ++ ".MARKDOWN") = false := by
          cases hb : fs_exists fs (base ++ ".MARKDOWN") with
          | true => exact absurd hb h3
          | false => rfl
        simp [List.find?_cons, h1', h2', h3'] at hfind

/-- C5: applying a "local repository is behind" discrepancy (missing,
mismatching, docs-missing or docs-mismatching) writes the remote content to
the expected local path, after which re-running the comparison for that same
entity yields the corresponding "matches" variant.  The `apply` implementation
is modelled from the spec because `sources.py` leaves it a stub. -/
theorem C5_apply_idempotent :
    (∀ (fs : FS) (base : String) (al : Alias) (r : AliasResult),
       r ∈ build_alias_comparison fs base al → r.updates_repository = true →
       r.resolved ∈ build_alias_comparison (AliasResult.apply_result fs r) base al)
    ∧ (∀ (fs : FS) (base : String) (sn : Snippet) (r : SnippetResult),
       r ∈ build_snippet_comparison fs base sn → r.updates_repository = true →
       r.resolved ∈
         build_snippet_comparison (SnippetResult.apply_result fs r) base sn)
    ∧ (∀ (gvars : List Gvar) (fs : FS) (k p : String),
       (build_gvar_comparison gvars fs k p).updates_repository = true →
       build_gvar_comparison gvars
         (GvarResult.apply_result fs (build_gvar_comparison gvars fs k p)) k p =
         (build_gvar_comparison gvars fs k p).resolved) := by
  refine ⟨?_, ?_, ?_⟩
  · intro fs base al r hmem hupd
    rcases mem_build_alias_comparison hmem with rfl | rfl
    · by_cases hex : fs_exists fs (base ++ ".alias") = true
      · by_cases hread : fs_read fs (base ++ ".alias") = al.code
        · rw [alias_code_result_of_match hex hread] at hupd
          simp [AliasResult.updates_repository] at hupd
        · rw [alias_code_result_of_mismatch hex hread]
          show AliasResult.LocalAliasMatchesAvrae (base ++ ".alias") al ∈
            build_alias_comparison
              (fs_write fs (base ++ ".alias") al.code) base al
          rw [build_alias_comparison,
            alias_code_result_of_match (fs_exists_fs_write_self _ _ _)
              (fs_read_fs_write_self _ _ _)]
          exact List.mem_cons_self _ _
      · have hex' : fs_exists fs (base ++ ".alias") = false := by
          cases hb : fs_exists fs (base ++ ".alias") with
          | true => exact absurd hb hex
          | false => rfl
        rw [alias_code_result_of_absent al hex']
        show AliasResult.LocalAliasMatchesAvrae (base ++ ".alias") al ∈
          build_alias_comparison (fs_write fs (base ++ ".alias") al.code) base al
        rw [build_alias_comparison,
          alias_code_result_of_match (fs_exists_fs_write_self _ _ _)
            (fs_read_fs_write_self _ _ _)]
        exact List.mem_cons_self _ _
    · cases hfind : (valid_doc_files base).find? (fun p => fs_exists fs p) with
      | none =>
        have hres : alias_docs_result fs base al =
            .LocalAliasDocsMissing (base ++ ".md") al := by
          simp only [alias_docs_result, hfind]
        rw [hres]
        show AliasResult.LocalAliasDocsMatchAvrae (base ++ ".md") al ∈
          build_alias_comparison (fs_write fs (base ++ ".md") al.docs) base al
        have hfind' : (valid_doc_files base).find?
            (fun p => fs_exists (fs_write fs (base ++ ".md") al.docs) p) =
            some (base ++ ".md") := by
          simp [valid_doc_files, List.find?_cons, fs_exists_fs_write_self]
        have hdocs : alias_docs_result
            (fs_write fs (base ++ ".md") al.docs) base al =
            .LocalAliasDocsMatchAvrae (base ++ ".md") al := by
          simp only [alias_docs_result, hfind']
          simp [fs_read_fs_write_self]
        rw [build_alias_comparison, hdocs]
        exact List.mem_cons_of_mem _ (List.mem_cons_self _ _)
      | some cp =>
        by_cases hread : fs_read fs cp = al.docs
        · have hres : alias_docs_result fs base al =
              .LocalAliasDocsMatchAvrae cp al := by
            simp only [alias_docs_result, hfind]
            simp [hread]
          rw [hres] at hupd
          simp [AliasResult.updates_repository] at hupd
        · have hres : alias_docs_result fs base al =
              .LocalAliasDocsDoNotMatchAvrae cp al := by
            simp only [alias_docs_result, hfind]
            simp [hread]
          rw [hres]
          show AliasResult.LocalAliasDocsMatchAvrae cp al ∈
            build_alias_comparison (fs_write fs cp al.docs) base al
          have hfind' := find?_docs_after_write fs base al.docs hfind
          have hdocs : alias_docs_result (fs_write fs cp al.docs) base al =
              .LocalAliasDocsMatchAvrae cp al := by
            simp only [alias_docs_result, hfind']
            simp [fs_read_fs_write_self]
          rw [build_alias_comparison, hdocs]
          exact List.mem_cons_of_mem _ (List.mem_cons_self _ _)
  · intro fs base sn r hmem hupd
    rcases mem_build_snippet_comparison hmem with rfl | rfl
    · by_cases hex : fs_exists fs (base ++ ".snippet") = true
      · by_cases hread : fs_read fs (base ++ ".snippet") = sn.code
        · rw [snippet_code_result_of_match hex hread] at hupd
          simp [SnippetResult.updates_repository] at hupd
        · rw [snippet_code_result_of_mismatch hex hread]
          show SnippetResult.LocalSnippetMatchesAvrae (base ++ ".snippet") sn ∈
            build_snippet_comparison
              (fs_write fs (base ++ ".snippet") sn.code) base sn
          rw [build_snippet_comparison,
            snippet_code_result_of_match (fs_exists_fs_write_self _ _ _)
              (fs_read_fs_write_self _ _ _)]
          exact List.mem_cons_self _ _
      · have hex' : fs_exists fs (base ++ ".snippet") = false := by
          cases hb : fs_exists fs (base ++ ".snippet") with
          | true => exact absurd hb hex
          | false => rfl
        rw [snippet_code_result_of_absent sn hex']
        show SnippetResult.LocalSnippetMatchesAvrae (base ++ ".snippet") sn ∈
          build_snippet_comparison
            (fs_write fs (base ++ ".snippet") sn.code) base sn
        rw [build_snippet_comparison,
          snippet_code_result_of_match (fs_exists_fs_write_self _ _ _)
            (fs_read_fs_write_self _ _ _)]
        exact List.mem_cons_self _ _
    · cases hfind : (valid_doc_files base).find? (fun p => fs_exists fs p) with
      | none =>
        have hres : snippet_docs_result fs base sn =
            .LocalSnippetDocsMissing (base ++ ".md") sn := by
          simp only [snippet_docs_result, hfind]
        rw [hres]
        show SnippetResult.LocalSnippetDocsMatchAvrae (base ++ ".md") sn ∈
          build_snippet_comparison (fs_write fs (base ++ ".md") sn.docs) base sn
        have hfind' : (valid_doc_files base).find?
            (fun p => fs_exists (fs_write fs (base ++ ".md") sn.docs) p) =
            some (base ++ ".md") := by
          simp [valid_doc_files, List.find?_cons, fs_exists_fs_write_self]
        have hdocs : snippet_docs_result
            (fs_write fs (base ++ ".md") sn.docs) base sn =
            .LocalSnippetDocsMatchAvrae (base ++ ".md") sn := by
          simp only [snippet_docs_result, hfind']
          simp [fs_read_fs_write_self]
        rw [build_snippet_comparison, hdocs]
        exact List.mem_cons_of_mem _ (List.mem_cons_self _ _)
      | some cp =>
        by_cases hread : fs_read fs cp = sn.docs
        · have hres : snippet_docs_result fs base sn =
              .LocalSnippetDocsMatchAvrae cp sn := by
            simp only [snippet_docs_result, hfind]
            simp [hread]
          rw [hres] at hupd
          simp [SnippetResult.updates_repository] at hupd
        · have hres : snippet_docs_result fs base sn =
              .LocalSnippetDocsDoNotMatchAvrae cp sn := by
            simp only [snippet_docs_result, hfind]
            simp [hread]
          rw [hres]
          show SnippetResult.LocalSnippetDocsMatchAvrae cp sn ∈
            build_snippet_comparison (fs_write fs cp sn.docs) base sn
          have hfind' := find?_docs_after_write fs base sn.docs hfind
          have hdocs : snippet_docs_result (fs_write fs cp sn.docs) base sn =
              .LocalSnippetDocsMatchAvrae cp sn := by
            simp only [snippet_docs_result, hfind']
            simp [fs_read_fs_write_self]
          rw [build_snippet_comparison, hdocs]
          exact List.mem_cons_of_mem _ (List.mem_cons_self _ _)
  · intro gvars fs k p hupd
    cases hfind : gvars.find? (fun g => g.key == k) with
    | none =>
      rw [build_gvar_comparison_of_no_remote hfind] at hupd
      simp [GvarResult.updates_repository] at hupd
    | some g =>
      by_cases hex : fs_exists fs p = true
      · by_cases hread : fs_read fs p = g.value
        · rw [build_gvar_comparison_of_match hfind hex hread] at hupd
          simp [GvarResult.updates_repository] at hupd
        · rw [build_gvar_comparison_of_mismatch hfind hex hread]
          show build_gvar_comparison gvars (fs_write fs p g.value) k p =
            .LocalGvarMatchesAvrae p g
          exact build_gvar_comparison_of_match hfind
            (fs_exists_fs_write_self _ _ _) (fs_read_fs_write_self _ _ _)
      · have hex' : fs_exists fs p = false := by
          cases hb : fs_exists fs p with
          | true => exact absurd hb hex
          | false => rfl
        rw [build_gvar_comparison_of_absent hfind hex']
        show build_gvar_comparison gvars (fs_write fs p g.value) k p =
          .LocalGvarMatchesAvrae p g
        exact build_gvar_comparison_of_match hfind
          (fs_exists_fs_write_self _ _ _) (fs_read_fs_write_self _ _ _)

/-- C5 witness: applying a concrete missing-alias, missing-snippet and
missing-gvar discrepancy yields the matching variant on re-comparison. -/
theorem C5_apply_idempotent_witness :
    (AliasResult.LocalAliasMissing ("b" ++ ".alias")
        (Alias.mk "A" "c" "d" [])).resolved ∈
      build_alias_comparison
        (AliasResult.apply_result []
          (AliasResult.LocalAliasMissing ("b" ++ ".alias")
            (Alias.mk "A" "c" "d" []))) "b" (Alias.mk "A" "c" "d" [])
    ∧ (SnippetResult.LocalSnippetMissing ("b" ++ ".snippet")
        ⟨"s", "c", "d"⟩).resolved ∈
      build_snippet_comparison
        (SnippetResult.apply_result []
          (SnippetResult.LocalSnippetMissing ("b" ++ ".snippet")
            ⟨"s", "c", "d"⟩)) "b" ⟨"s", "c", "d"⟩
    ∧ build_gvar_comparison [⟨"k", "v"⟩]
        (GvarResult.apply_result []
          (build_gvar_comparison [⟨"k", "v"⟩] [] "k" "p")) "k" "p" =
      (build_gvar_comparison [⟨"k", "v"⟩] [] "k" "p").resolved :=
  ⟨C5_apply_idempotent.1 [] "b" (Alias.mk "A" "c" "d" [])
      (AliasResult.LocalAliasMissing ("b" ++ ".alias") (Alias.mk "A" "c" "d" []))
      (by exact List.mem_cons_self _ _) rfl,
   C5_apply_idempotent.2.1 [] "b" ⟨"s", "c", "d"⟩
      (SnippetResult.LocalSnippetMissing ("b" ++ ".snippet") ⟨"s", "c", "d"⟩)
      (by exact List.mem_cons_self _ _) rfl,
   C5_apply_idempotent.2.2 [⟨"k", "v"⟩] [] "k" "p" rfl⟩

lemma snippets_dir_eq (b cn : String) :
    path_join [b, cn, "snippets"] = path_join [b, cn] ++ "/" ++ "snippets" := by
  rw [path_join_two_cons b cn ["snippets"] (by simp), path_join_pair]
  rfl

/-- C9: every result of one collection's alias comparison carries a path
inside that collection's own directory, and every snippet-comparison result a
path inside its `snippets` subdirectory; hence a file with a matching
extension directly under the repository root, or anywhere outside the
compared collection's directory, never appears in that comparison's results. -/
theorem C9_sweep_scoping (fs : FS) (collection : Collection)
    (base_path : String) :
    (∀ r, r ∈ compare_aliases fs collection base_path →
       ∃ t, r.alias_path = path_join [base_path, collection.name] ++ "/" ++ t)
    ∧ (∀ r, r ∈ compare_snippets fs collection base_path →
       ∃ t, r.snippet_path =
         path_join [base_path, collection.name] ++ "/" ++ ("snippets" ++ "/" ++ t))
    ∧ (∀ f r, (∀ t, f ≠ path_join [base_path, collection.name] ++ "/" ++ t) →
       r ∈ compare_aliases fs collection base_path → r.alias_path ≠ f)
    ∧ (∀ f r, (∀ t, f ≠ path_join [base_path, collection.name] ++ "/" ++ t) →
       r ∈ compare_snippets fs collection base_path → r.snippet_path ≠ f) := by
  have h1 : ∀ r, r ∈ compare_aliases fs collection base_path →
      ∃ t, r.alias_path = path_join [base_path, collection.name] ++ "/" ++ t := by
    intro r hr
    rw [compare_aliases_eq] at hr
    rcases List.mem_append.mp hr with hchunk | hsweep
    · rcases List.mem_flatten.mp hchunk with ⟨l, hl, hrl⟩
      rcases List.mem_map.mp hl with ⟨e, he, rfl⟩
      rcases mem_collection_alias_map_elim he with ⟨names, hchain, hp⟩
      have hnn : names ++ [e.2.name] ≠ [] := by simp
      have hlist : ([base_path, collection.name] ++ names ++ [e.2.name]) =
          base_path :: collection.name :: (names ++ [e.2.name]) := by simp
      have hjoin : e.1 = (base_path ++ "/" ++ collection.name) ++ "/" ++
          path_join (names ++ [e.2.name]) := by
        rw [hp, hlist]
        exact path_join_two_cons _ _ _ hnn
      rcases mem_build_alias_comparison hrl with rfl | rfl
      · refine ⟨path_join (names ++ [e.2.name]) ++ ".alias", ?_⟩
        rw [alias_code_result_path, hjoin, path_join_pair]
        simp [String.append_assoc]
      · rcases alias_docs_result_path fs e.1 e.2 with ⟨ext, _, hpath⟩
        refine ⟨path_join (names ++ [e.2.name]) ++ ext, ?_⟩
        rw [hpath, hjoin, path_join_pair]
        simp [String.append_assoc]
    · rcases List.mem_map.mp hsweep with ⟨p, hp, rfl⟩
      have hpf : p ∈ find_aliases (path_join [base_path, collection.name]) fs :=
        (List.mem_filter.mp hp).1
      rcases mem_find_aliases hpf with ⟨t, ht⟩
      exact ⟨t, ht⟩
  have h2 : ∀ r, r ∈ compare_snippets fs collection base_path →
      ∃ t, r.snippet_path =
        path_join [base_path, collection.name] ++ "/" ++
          ("snippets" ++ "/" ++ t) := by
    intro r hr
    rw [compare_snippets_eq] at hr
    rcases List.mem_append.mp hr with hchunk | hsweep
    · rcases List.mem_flatten.mp hchunk with ⟨l, hl, hrl⟩
      rcases List.mem_map.mp hl with ⟨e, he, rfl⟩
      unfold collection_snippet_map at he
      rcases mem_dict_update_many_elim _ _ _ he with h0 | hent
      · simp at h0
      · rcases List.mem_map.mp hent with ⟨sn, hsn, rfl⟩
        rcases mem_build_snippet_comparison hrl with rfl | rfl
        · refine ⟨sn.name ++ ".snippet", ?_⟩
          rw [snippet_code_result_path, snippets_dir_eq]
          simp only [String.append_assoc]
        · rcases snippet_docs_result_path fs _ sn with ⟨ext, _, hpath⟩
          refine ⟨sn.name ++ ext, ?_⟩
          rw [hpath, snippets_dir_eq]
          simp only [String.append_assoc]
    · rcases List.mem_map.mp hsweep with ⟨p, hp, rfl⟩
      have hpf : p ∈ find_snippets
          (path_join [base_path, collection.name, "snippets"]) fs :=
        (List.mem_filter.mp hp).1
      rcases mem_find_snippets hpf with ⟨t, ht⟩
      refine ⟨t, ?_⟩
      rw [ht, snippets_dir_eq]
      simp only [String.append_assoc]
      rfl
  refine ⟨h1, h2, ?_, ?_⟩
  · intro f r hne hr heq
    rcases h1 r hr with ⟨t, ht⟩
    exact hne t (by rw [← heq, ht])
  · intro f r hne hr heq
    rcases h2 r hr with ⟨t, ht⟩
    exact hne ("snippets" ++ "/" ++ t) (by rw [← heq, ht])

/-- C9 witness: the sample scenario's not-found result for `extra.alias` lies
inside the collection directory `repo/C`. -/
theorem C9_sweep_scoping_witness :
    ∃ t, (AliasResult.LocalAliasNotFoundInAvrae
        "repo/C/A/extra.alias").alias_path =
      path_join ["repo", sample_collection.name] ++ "/" ++ t :=
  (C9_sweep_scoping sample_fs sample_collection "repo").1 _
    (by rw [sample_comparison_eval]; simp)

/-- C2: the derived path-to-alias mapping keys every reachable alias by
`root/collection_name/name₁/.../nameₙ/nameₙ` (adding `.alias` gives the code
file), and conversely every mapping entry comes from such a chain; the map is
built from the collection and root alone, independent of the filesystem. -/
theorem C2_alias_path_derivation :
    (∀ (collection : Collection) (base_path : String) (names : List String)
        (x : Alias), alias_chain collection names x →
       path_join ([base_path, collection.name] ++ names ++ [x.name]) ∈
         (collection_alias_map collection base_path).map Prod.fst)
    ∧ (∀ (collection : Collection) (base_path : String) (e : String × Alias),
       e ∈ collection_alias_map collection base_path →
       ∃ names, alias_chain collection names e.2 ∧
         e.1 = path_join ([base_path, collection.name] ++ names ++ [e.2.name])) :=
  ⟨fun _ b _ _ h => key_mem_collection_alias_map_of_chain b h,
   fun _ _ _ he => mem_collection_alias_map_elim he⟩

/-- C2 witness: the chain `A`/`B` of the sample scenario is keyed at
`repo/C/A/B/B`, and the entry for `A` comes from the chain `[A]`. -/
theorem C2_alias_path_derivation_witness :
    path_join (["repo", sample_collection.name] ++ ["A", "B"] ++
        [sample_B.name]) ∈
      (collection_alias_map sample_collection "repo").map Prod.fst
    ∧ ∃ names, alias_chain sample_collection names sample_A ∧
        ("repo/C/A/A" : String) =
          path_join (["repo", sample_collection.name] ++ names ++
            [sample_A.name]) :=
  ⟨C2_alias_path_derivation.1 sample_collection "repo" ["A", "B"] sample_B
    ⟨sample_A, List.mem_singleton.mpr rfl,
      InTree.child (List.mem_singleton.mpr rfl) (InTree.here sample_B)⟩,
   C2_alias_path_derivation.2 sample_collection "repo"
     ("repo/C/A/A", sample_A)
     (by rw [sample_alias_map]; exact List.mem_cons_self _ _)⟩

/-- C3 counterexample: on the spec's sample scenario the comparison does not
emit exactly the four claimed discrepancies — it emits five (alias `B` also
receives an unconditional docs-missing result between the mismatch for `B` and
the not-found result). -/
theorem C3_sample_scenario_counterexample :
    compare_aliases sample_fs sample_collection "repo" ≠
      [.LocalAliasMatchesAvrae "repo/C/A/A.alias" sample_A,
       .LocalAliasDocsMissing "repo/C/A/A.md" sample_A,
       .LocalAliasDoesNotMatchAvrae "repo/C/A/B/B.alias" sample_B,
       .LocalAliasNotFoundInAvrae "repo/C/A/extra.alias"]
    ∧ (compare_aliases sample_fs sample_collection "repo").length = 5 := by
  constructor
  · intro h
    have hlen := congrArg List.length (sample_comparison_eval.symm.trans h)
    simp at hlen
  · rw [sample_comparison_eval]
    rfl

/-- C3 amended: the sample scenario emits exactly five discrepancies, in
order: code match for `A`, docs-missing for `A`, code mismatch for `B`,
docs-missing for `B`, and not-found for `extra.alias` — the four discrepancies
named by the claim appear in the claimed relative order. -/
theorem C3_sample_scenario_amended :
    compare_aliases sample_fs sample_collection "repo" =
      [.LocalAliasMatchesAvrae "repo/C/A/A.alias" sample_A,
       .LocalAliasDocsMissing "repo/C/A/A.md" sample_A,
       .LocalAliasDoesNotMatchAvrae "repo/C/A/B/B.alias" sample_B,
       .LocalAliasDocsMissing "repo/C/A/B/B.md" sample_B,
       .LocalAliasNotFoundInAvrae "repo/C/A/extra.alias"] :=
  sample_comparison_eval

end Autoupdate
